import Mathlib

/-!
Verification development for the termscon legal-context retrieval core.

This file embeds the retrieval subsystem of the repository in Lean 4:

* `termscon_django/analyzer/vector_db_real.py` (`RealVectorDB`): cosine
  similarity, per-corpus ranked search with a 0.3 relevance threshold and
  fixed fallback contexts, lazy corpus loading with a per-corpus failure
  latch, the SQLite criminal-code loader, and the query-embedding provider
  with its random placeholder path.
* `backend/database/vector_db.py` (`VectorDatabase`): the earlier backend
  variant of the criminal-code search and of `get_legal_context`.

Modelling conventions:

* Python floats are idealised as exact rationals (`ℚ`).  A cosine
  similarity `dot/(‖a‖·‖b‖)` is generally irrational, so it is carried
  symbolically as a pair `SimVal` of the dot product and the product of the
  squared norms; the represented real number is `num / Real.sqrt den`.
  All comparisons the Python code performs on similarity floats are
  performed on the order-preserving rational key `simKey`
  (`sign num * num^2 / den`); theorems `simKey_lt_iff_real`,
  `simKey_eq_iff_real` and `simGtThreshold_iff_real` below prove that this
  key ordering coincides with the real ordering of the represented values
  whenever the denominators are positive (i.e. no zero-norm vector is
  involved).  A zero denominator corresponds to IEEE `0.0/0.0 = NaN`
  (`SimVal.isNaN`); like NaN in Python, such a value fails the `> 0.3`
  comparison.
* Python's `list.sort` is a stable comparison sort.  When every
  similarity is finite the element comparisons are consistent: sorting the
  `(similarity, index)` tuples with `reverse=True` then yields the unique
  list that is descending in the lexicographic tuple order, and sorting
  with `key=lambda x: x[1], reverse=True` yields the unique list
  descending by similarity with ties in original list order; both unique
  outcomes are obtained here with `List.insertionSort` and a total
  ordering relation (`rankRel`, `backendRankRel`).  A NaN similarity,
  however, makes the IEEE comparisons inconsistent (NaN is neither below,
  equal to, nor above anything), and CPython's algorithm then produces a
  result the total-order model does not capture; CPython's algorithm
  itself (run detection plus binary insertion, with the reverse wrapping
  used for `reverse=True`) is modelled separately as `pyListSortAsc` /
  `pyListSortReverse` over the IEEE tuple comparison `pyPairLt`, and is
  what the NaN-region analysis of C3 is carried out on.
* External effects are explicit parameters: the SQL row set, the ChromaDB
  query response, the embedding provider's answer, and the global
  pseudo-random generator state.
-/

/-- Embedding vectors: lists of exact rationals standing in for numpy
float arrays. -/
abbrev Vec := List ℚ

/-- Dot product `np.dot(a, b)` of two vectors. -/
def dot (a b : Vec) : ℚ := (List.zipWith (fun x y => x * y) a b).sum

/-- Squared Euclidean norm, `np.linalg.norm(a) ** 2 = dot(a, a)`. -/
def normSq (a : Vec) : ℚ := dot a a

/-- Symbolic value of a cosine-similarity float: the represented real
number is `num / Real.sqrt den` (and IEEE NaN when `den = 0`, in which
case `num = 0` as well whenever the value arises from `cosineSim`). -/
structure SimVal where
  num : ℚ
  den : ℚ
deriving DecidableEq, Repr

/-- The cosine similarity `np.dot(a, b) / (np.linalg.norm(a) * np.linalg.norm(b))`
from `RealVectorDB._cosine_similarity` (and inlined in the backend's
`search_criminal_code`), carried symbolically: the numerator is the dot
product, the denominator under the square root is `‖a‖² * ‖b‖²`. -/
def cosineSim (a b : Vec) : SimVal := { num := dot a b, den := normSq a * normSq b }

/-- Order-preserving rational key for the real number `num / Real.sqrt den`:
`sign num * num² / den`.  Comparing keys is equivalent to comparing the
represented reals when both denominators are positive
(`simKey_lt_iff_real`).  For `den = 0` (the NaN case) Lean's rational
division by zero makes the key `0`. -/
def simKey (s : SimVal) : ℚ := if s.num < 0 then -(s.num ^ 2 / s.den) else s.num ^ 2 / s.den

/-- A similarity float is IEEE NaN exactly when the norm product under the
square root is zero (the computation is then `0.0 / 0.0`). -/
def SimVal.isNaN (s : SimVal) : Bool := s.den == 0

/-- The relevance test `similarity > 0.3` of the Python searches, on the
symbolic representation: `0.3 < num / Real.sqrt den` iff `(0.3)² = 9/100`
is below the key (`simGtThreshold_iff_real`).  A NaN similarity fails this
test, exactly as `nan > 0.3` is `False` in Python. -/
def simGtThreshold (s : SimVal) : Bool := decide (9 / 100 < simKey s)

/-- Ordering in which `RealVectorDB.search_civil_code` /
`search_criminal_code` rank their `(similarity, index)` pairs when every
similarity is finite: `similarities.sort(reverse=True)` on Python tuples
then sorts by similarity descending and breaks similarity ties by
*descending* index.  This total order keys a NaN similarity as 0 and is
therefore only a faithful model of the sort in the finite region (all
norms positive); with a NaN present, CPython's comparisons are
inconsistent and the faithful model is `pyListSortReverse pyPairLt`
(see the C3 counterexample).  In the finite region the two models
provably coincide: `pyListSortReverse_eq_rankedSimilarities`. -/
def rankRel (x y : SimVal × ℕ) : Prop :=
  simKey y.1 < simKey x.1 ∨ (simKey x.1 = simKey y.1 ∧ y.2 ≤ x.2)

instance : DecidableRel rankRel := fun x y => by
  unfold rankRel
  infer_instance

instance : IsTotal (SimVal × ℕ) rankRel := by
  constructor
  intro a b
  unfold rankRel
  rcases lt_trichotomy (simKey a.1) (simKey b.1) with h | h | h
  · exact Or.inr (Or.inl h)
  · rcases Nat.le_total b.2 a.2 with h2 | h2
    · exact Or.inl (Or.inr ⟨h, h2⟩)
    · exact Or.inr (Or.inr ⟨h.symm, h2⟩)
  · exact Or.inl (Or.inl h)

instance : IsTrans (SimVal × ℕ) rankRel := by
  constructor
  intro a b c hab hbc
  unfold rankRel at *
  rcases hab with h1 | ⟨h1, h1i⟩ <;> rcases hbc with h2 | ⟨h2, h2i⟩
  · exact Or.inl (h2.trans h1)
  · exact Or.inl (h2 ▸ h1)
  · exact Or.inl (h1 ▸ h2)
  · exact Or.inr ⟨h1.trans h2, h2i.trans h1i⟩

/-- Ordering used by the backend `VectorDatabase.search_criminal_code`
when every similarity is finite:
`similarities.sort(key=lambda x: x[1], reverse=True)` sorts by similarity
descending only; Python's sort is stable, so ties keep their original list
position.  Elements are `((paragraf_id, similarity), position)`.  Like
`rankRel`, this total order keys NaN as 0 and models the sort only in the
finite region (all norms positive); an inconsistent NaN comparison makes
the real key-sort deviate from any total order. -/
def backendRankRel (x y : (ℕ × SimVal) × ℕ) : Prop :=
  simKey y.1.2 < simKey x.1.2 ∨ (simKey x.1.2 = simKey y.1.2 ∧ x.2 ≤ y.2)

instance : DecidableRel backendRankRel := fun x y => by
  unfold backendRankRel
  infer_instance

instance : IsTotal ((ℕ × SimVal) × ℕ) backendRankRel := by
  constructor
  intro a b
  unfold backendRankRel
  rcases lt_trichotomy (simKey a.1.2) (simKey b.1.2) with h | h | h
  · exact Or.inr (Or.inl h)
  · rcases Nat.le_total a.2 b.2 with h2 | h2
    · exact Or.inl (Or.inr ⟨h, h2⟩)
    · exact Or.inr (Or.inr ⟨h.symm, h2⟩)
  · exact Or.inl (Or.inl h)

instance : IsTrans ((ℕ × SimVal) × ℕ) backendRankRel := by
  constructor
  intro a b c hab hbc
  unfold backendRankRel at *
  rcases hab with h1 | ⟨h1, h1i⟩ <;> rcases hbc with h2 | ⟨h2, h2i⟩
  · exact Or.inl (h2.trans h1)
  · exact Or.inl (h2 ▸ h1)
  · exact Or.inl (h1 ▸ h2)
  · exact Or.inr ⟨h1.trans h2, h1i.trans h2i⟩

/-- One result entry of `RealVectorDB.search_civil_code`:
`{'text': ..., 'metadata': ..., 'similarity': ...}` (the metadata dict is
collapsed to its paragraph label). -/
structure CivilEntry where
  text : String
  metadata : String
  similarity : SimVal
deriving DecidableEq, Repr

/-- One result entry of `RealVectorDB.search_criminal_code` (and of the
backend `search_criminal_code`):
`{'paragraph_number': ..., 'text': ..., 'similarity': ...}`. -/
structure CriminalEntry where
  paragraph_number : String
  text : String
  similarity : SimVal
deriving DecidableEq, Repr

/-- The fixed fallback context of `RealVectorDB._fallback_civil_context`:
four hand-curated entries with similarities 0.7, 0.6, 0.6, 0.5. -/
def fallback_civil_context : List CivilEntry :=
  [ { text := "§1815 Občanského zákoníku: Smlouva je neplatná, pokud odporuje zákonu nebo dobrým mravům.",
      metadata := "1815", similarity := { num := 7 / 10, den := 1 } },
    { text := "§1826 Občanského zákoníku: Podmínky smlouvy musí být spravedlivé pro obě strany.",
      metadata := "1826", similarity := { num := 6 / 10, den := 1 } },
    { text := "§1793 Občanského zákoníku: Spotřebitelské smlouvy podléhají zvláštní ochraně.",
      metadata := "1793", similarity := { num := 6 / 10, den := 1 } },
    { text := "§1796 Občanského zákoníku: Neplatné jsou ustanovení omezující práva spotřebitele.",
      metadata := "1796", similarity := { num := 5 / 10, den := 1 } } ]

/-- The fixed fallback context of `RealVectorDB._fallback_criminal_context`:
two hand-curated entries with similarities 0.6, 0.5. -/
def fallback_criminal_context : List CriminalEntry :=
  [ { paragraph_number := "1",
      text := "§1 Trestního zákoníku: Čin je trestný, jen pokud jeho trestnost byla zákonem stanovena dříve.",
      similarity := { num := 6 / 10, den := 1 } },
    { paragraph_number := "209",
      text := "§209 Trestního zákoníku: Podvod - kdo jiného uvede v omyl a způsobí mu škodu.",
      similarity := { num := 5 / 10, den := 1 } } ]

/-- The unsorted `(similarity, index)` pair list of the RealVectorDB
searches (the loop body of lines 336–339): one pair per stored
embedding, in enumeration order. -/
def simPairs (qe : Vec) (embs : List Vec) : List (SimVal × ℕ) :=
  (embs.enum).map (fun p => (cosineSim qe p.2, p.1))

/-- The ranked `(similarity, index)` list built by lines 336–342 of
`search_civil_code` (and the identical lines of `search_criminal_code`):
the pair list sorted by `sort(reverse=True)`. -/
def rankedSimilarities (qe : Vec) (embs : List Vec) : List (SimVal × ℕ) :=
  List.insertionSort rankRel (simPairs qe embs)

/-- Lines 332–353 of `RealVectorDB.search_civil_code`, for a loaded civil
corpus held as the parallel arrays `documents` / `embeddings` / `metadatas`
and an already-computed query embedding: rank all stored embeddings,
keep the top `n_results`, drop entries with similarity not above 0.3, and
substitute the full fallback context if nothing remains. -/
def search_civil_code_loaded (documents : List String) (metadatas : List String)
    (embs : List Vec) (qe : Vec) (n_results : ℕ) : List CivilEntry :=
  let top := (rankedSimilarities qe embs).take n_results
  let results := (top.filter (fun p => simGtThreshold p.1)).map (fun p =>
    { text := documents.getD p.2 "",
      metadata := metadatas.getD p.2 "",
      similarity := p.1 : CivilEntry })
  if results.isEmpty then fallback_civil_context else results

/-- Lines 369–390 of `RealVectorDB.search_criminal_code`, for a loaded
criminal corpus: identical ranking pipeline, criminal entry shape and
criminal fallback. -/
def search_criminal_code_loaded (documents : List String) (metadatas : List String)
    (embs : List Vec) (qe : Vec) (n_results : ℕ) : List CriminalEntry :=
  let top := (rankedSimilarities qe embs).take n_results
  let results := (top.filter (fun p => simGtThreshold p.1)).map (fun p =>
    { paragraph_number := metadatas.getD p.2 "",
      text := documents.getD p.2 "",
      similarity := p.1 : CriminalEntry })
  if results.isEmpty then fallback_criminal_context else results

/-- A loaded civil corpus as stored in `self.civil_embeddings`: the dict
`{'documents': ..., 'embeddings': ..., 'metadatas': ...}`.  The ChromaDB
loader can store `embeddings = None` (line 166) while still assigning the
dict, so the embeddings component is optional. -/
structure CivilCorpus where
  documents : List String
  embeddings : Option (List Vec)
  metadatas : List String

/-- A loaded criminal corpus as stored in `self.criminal_embeddings`;
`metadatas` holds the paragraph numbers. -/
structure CriminalCorpus where
  documents : List String
  embeddings : Option (List Vec)
  metadatas : List String

/-- The mutable per-process state of a `RealVectorDB` instance: the two
corpus slots, the two `_*_load_failed` latches (`hasattr` modelled as a
Bool that starts `false`), and instrumentation counters recording how
often each loader has been called (the spec's proposed verification
device). -/
structure RealVectorDBState where
  civil_embeddings : Option CivilCorpus
  civil_load_failed : Bool
  civil_load_calls : ℕ
  criminal_embeddings : Option CriminalCorpus
  criminal_load_failed : Bool
  criminal_load_calls : ℕ

/-- Outcome environment for the civil loader
`_load_civil_code_embeddings`: the result of its k-th invocation (`none`
models any of its failure exits, e.g. a missing store).  The loader's own
body only touches external state, so it is represented by its outcome. -/
abbrev CivilLoadEnv := ℕ → Option CivilCorpus

/-- Outcome environment for `_load_criminal_code_embeddings`, analogous. -/
abbrev CriminalLoadEnv := ℕ → Option CriminalCorpus

/-- `RealVectorDB.__init__` / `_initialize_databases`: both loaders are
called once eagerly; a failure here leaves the corpus slot empty but does
NOT set the `_*_load_failed` latch (the latch is only ever set inside the
search methods). -/
def initialize_databases (envCriminal : CriminalLoadEnv) (envCivil : CivilLoadEnv) :
    RealVectorDBState :=
  { civil_embeddings := envCivil 0
    civil_load_failed := false
    civil_load_calls := 1
    criminal_embeddings := envCriminal 0
    criminal_load_failed := false
    criminal_load_calls := 1 }

/-- Body of `search_civil_code` once the corpus dict is present (lines
329–353): a `None` embeddings array still falls back. -/
def search_civil_with_corpus (c : CivilCorpus) (qe : Vec) (n_results : ℕ) :
    List CivilEntry :=
  match c.embeddings with
  | none => fallback_civil_context
  | some embs => search_civil_code_loaded c.documents c.metadatas embs qe n_results

/-- `RealVectorDB.search_civil_code` (lines 318–353) including the lazy
load with failure latch: if no corpus is loaded and no failure has been
latched, call the loader once more; on failure latch `_civil_load_failed`
and return the fallback context.  Returns the updated state together with
the result list. -/
def search_civil_code (env : CivilLoadEnv) (qe : Vec) (n_results : ℕ)
    (st : RealVectorDBState) : RealVectorDBState × List CivilEntry :=
  if st.civil_embeddings.isNone && !st.civil_load_failed then
    match env st.civil_load_calls with
    | none =>
        ({ st with civil_load_failed := true, civil_load_calls := st.civil_load_calls + 1 },
         fallback_civil_context)
    | some c =>
        ({ st with civil_embeddings := some c, civil_load_calls := st.civil_load_calls + 1 },
         search_civil_with_corpus c qe n_results)
  else
    match st.civil_embeddings with
    | none => (st, fallback_civil_context)
    | some c => (st, search_civil_with_corpus c qe n_results)

/-- Body of `search_criminal_code` once the corpus dict is present. -/
def search_criminal_with_corpus (c : CriminalCorpus) (qe : Vec) (n_results : ℕ) :
    List CriminalEntry :=
  match c.embeddings with
  | none => fallback_criminal_context
  | some embs => search_criminal_code_loaded c.documents c.metadatas embs qe n_results

/-- `RealVectorDB.search_criminal_code` (lines 355–390), mirroring
`search_civil_code`. -/
def search_criminal_code (env : CriminalLoadEnv) (qe : Vec) (n_results : ℕ)
    (st : RealVectorDBState) : RealVectorDBState × List CriminalEntry :=
  if st.criminal_embeddings.isNone && !st.criminal_load_failed then
    match env st.criminal_load_calls with
    | none =>
        ({ st with criminal_load_failed := true,
                   criminal_load_calls := st.criminal_load_calls + 1 },
         fallback_criminal_context)
    | some c =>
        ({ st with criminal_embeddings := some c,
                   criminal_load_calls := st.criminal_load_calls + 1 },
         search_criminal_with_corpus c qe n_results)
  else
    match st.criminal_embeddings with
    | none => (st, fallback_criminal_context)
    | some c => (st, search_criminal_with_corpus c qe n_results)

/-- The bundle returned by `RealVectorDB.get_legal_context`. -/
structure LegalContextBundle where
  civil_code : List CivilEntry
  criminal_code : List CriminalEntry

/-- `RealVectorDB.get_legal_context` (lines 392–408): civil search with the
full `n_results` budget, criminal search with `max(1, n_results // 2)`.
Each search computes its own query embedding, so the two query vectors are
separate parameters. -/
def get_legal_context (envCivil : CivilLoadEnv) (envCriminal : CriminalLoadEnv)
    (qeCivil qeCriminal : Vec) (n_results : ℕ) (st : RealVectorDBState) :
    RealVectorDBState × LegalContextBundle :=
  let civil := search_civil_code envCivil qeCivil n_results st
  let criminal := search_criminal_code envCriminal qeCriminal (max 1 (n_results / 2)) civil.1
  (criminal.1, { civil_code := civil.2, criminal_code := criminal.2 })

/-- Iterate `search_civil_code` (one call per analysis query) from a
starting state, discarding the per-query results: the process trace used
to check the failure latch. -/
def iterate_civil_queries (env : CivilLoadEnv) (qe : Vec) (n_results : ℕ) :
    ℕ → RealVectorDBState → RealVectorDBState
  | 0, st => st
  | k + 1, st => iterate_civil_queries env qe n_results k (search_civil_code env qe n_results st).1

/-- IEEE-754 binary32 value of a 32-bit pattern, as used by
`np.frombuffer(blob, dtype=np.float32)`.  Exponent 255 encodes ±Inf/NaN,
which have no rational counterpart; they are mapped to 0 here — no claim
in this development depends on a blob that encodes a non-finite float. -/
def float32_of_bits (b : ℕ) : ℚ :=
  let s : ℕ := b / 2 ^ 31
  let e : ℕ := (b / 2 ^ 23) % 2 ^ 8
  let f : ℕ := b % 2 ^ 23
  let mag : ℚ :=
    if e = 0 then (f : ℚ) / 2 ^ 149
    else if e = 255 then 0
    else ((2 ^ 23 + f : ℕ) : ℚ) * (2 : ℚ) ^ e / 2 ^ 150
  if s = 1 then -mag else mag

/-- Decode a byte string four bytes at a time (little endian) into float32
values; a trailing group of fewer than four bytes decodes nothing. -/
def decode_f32_list : List ℕ → Vec
  | b0 :: b1 :: b2 :: b3 :: rest =>
      float32_of_bits (b0 + 2 ^ 8 * b1 + 2 ^ 16 * b2 + 2 ^ 24 * b3) :: decode_f32_list rest
  | _ => []

/-- `np.frombuffer(blob, dtype=np.float32)`: raises (here: `none`) exactly
when the buffer length is not a multiple of the 4-byte element size. -/
def np_frombuffer_f32 (blob : List ℕ) : Option Vec :=
  if blob.length % 4 = 0 then some (decode_f32_list blob) else none

/-- A record is kept by the loader loop iff its blob is non-empty (the
`if embedding_blob:` guard) and decodes without error (the
`except ... continue` around `np.frombuffer`). -/
def valid_blob (blob : List ℕ) : Bool := !blob.isEmpty && blob.length % 4 == 0

/-- The record-processing loop of `_load_criminal_code_embeddings` (lines
252–270) over the joined SQL rows `(cislo, text, embedding_blob)`:
malformed records are skipped, the rest are accumulated in order into the
three parallel arrays. -/
def load_criminal_rows : List (String × String × List ℕ) → List String × List Vec × List String
  | [] => ([], [], [])
  | (cislo, text, blob) :: rest =>
      if blob.isEmpty then load_criminal_rows rest
      else
        match np_frombuffer_f32 blob with
        | none => load_criminal_rows rest
        | some v =>
            let acc := load_criminal_rows rest
            (text :: acc.1, v :: acc.2.1, cislo :: acc.2.2)

/-- `_load_criminal_code_embeddings` (lines 252–290) from the fetched rows
onward: run the loop, then succeed iff both `documents` and `embeddings`
are non-empty (`if documents and embeddings:`), else report failure. -/
def load_criminal_code_embeddings (rows : List (String × String × List ℕ)) :
    Option CriminalCorpus :=
  let acc := load_criminal_rows rows
  if acc.1.isEmpty || acc.2.1.isEmpty then none
  else some { documents := acc.1, embeddings := some acc.2.1, metadatas := acc.2.2 }

/-- One draw of numpy's global pseudo-random generator.  Only two facts
about `np.random.random` reach any claim: successive draws depend on (and
advance) the hidden global state, and they do not depend on any function
input.  The concrete mixing function below is an arbitrary stand-in with
those properties. -/
def npRandomDraw (state : ℕ) : ℚ := (((state * 48271 + 12345) % 65536 : ℕ) : ℚ) / 65536

/-- `np.random.random(d).astype(np.float32)` under the explicit-state
model: `d` draws from the global generator, advancing its state by `d`. -/
def npRandomRandom (state d : ℕ) : Vec × ℕ :=
  ((List.range d).map (fun i => npRandomDraw (state + i)), state + d)

/-- `RealVectorDB._create_query_embedding` (lines 303–312): ask the
sentence-transformer provider; on any failure (`except:`) substitute
`np.random.random(384)`.  The provider is an external collaborator,
represented by its outcome; the generator state is threaded explicitly. -/
def create_query_embedding (provider : String → Option Vec) (query_text : String)
    (rngState : ℕ) : Vec × ℕ :=
  match provider query_text with
  | some v => (v, rngState)
  | none => npRandomRandom rngState 384

/-- One result entry of the backend `VectorDatabase.search_civil_code`:
`{'text': ..., 'distance': ..., 'metadata': ...}` where distance and
metadata may be `None`. -/
structure BackendCivilEntry where
  text : String
  distance : Option ℚ
  metadata : Option String
deriving DecidableEq, Repr

/-- Shape of a ChromaDB `collection.query` response as consumed by the
backend `search_civil_code`: parallel outer lists (one inner list per
query embedding) of documents, distances and metadata labels. -/
structure ChromaQueryResponse where
  documents : List (List String)
  distances : List (List ℚ)
  metadatas : List (List String)

/-- Backend `VectorDatabase.search_civil_code` (lines 16–39), given the
ChromaDB response for the submitted query (`none` models any raised
exception, which the method turns into `[]`): format
`documents[0]` with co-indexed distances and metadata, or return `[]`
when the response carries no documents. -/
def backend_search_civil_code (resp : Option ChromaQueryResponse) : List BackendCivilEntry :=
  match resp with
  | none => []
  | some r =>
      match r.documents with
      | [] => []
      | docs0 :: _ =>
          docs0.enum.map (fun p =>
            { text := p.2,
              distance := if r.distances.isEmpty then none
                          else some ((r.distances.getD 0 []).getD p.1 0),
              metadata := if r.metadatas.isEmpty then none
                          else some ((r.metadatas.getD 0 []).getD p.1 "") })

/-- The similarity list built by backend `search_criminal_code` lines
55–66: each `(paragraf_id, embedding_blob)` row whose blob decodes and
matches the query dimension contributes `(paragraf_id, similarity)`;
rows raising inside the `try` (`np.frombuffer` on a bad length, `np.dot`
on a dimension mismatch) are skipped by `continue`.  List order is row
order; the position tag records it for the stable sort. -/
def backend_similarities (qe : Vec) (rows : List (ℕ × List ℕ)) : List ((ℕ × SimVal) × ℕ) :=
  (rows.filterMap (fun row =>
    match np_frombuffer_f32 row.2 with
    | none => none
    | some v => if v.length = qe.length then some (row.1, cosineSim qe v) else none)).enum.map
      (fun p => (p.2, p.1))

/-- Backend `VectorDatabase.search_criminal_code` (lines 41–89): return
`[]` when the embeddings table is empty; otherwise rank all decodable
rows by cosine similarity (stable descending sort, no relevance
threshold), take the top `n_results`, and look each paragraph number and
text up in `paragrafy` (`para`; ids that do not resolve are dropped). -/
def backend_search_criminal_code (para : ℕ → Option (String × String)) (qe : Vec)
    (rows : List (ℕ × List ℕ)) (n_results : ℕ) : List CriminalEntry :=
  if rows.isEmpty then []
  else
    let sorted := List.insertionSort backendRankRel (backend_similarities qe rows)
    (sorted.take n_results).filterMap (fun p =>
      (para p.1.1).map (fun ct =>
        { paragraph_number := ct.1, text := ct.2, similarity := p.1.2 }))

/-- The bundle returned by the backend `VectorDatabase.get_legal_context`. -/
structure BackendLegalContextBundle where
  civil_code : List BackendCivilEntry
  criminal_code : List CriminalEntry

/-- Backend `VectorDatabase.get_legal_context` (lines 91–99): both corpus
searches receive the same query embedding and the same full `n_results`
budget; there is no fallback substitution in this variant. -/
def backend_get_legal_context (resp : Option ChromaQueryResponse)
    (para : ℕ → Option (String × String)) (qe : Vec) (rows : List (ℕ × List ℕ))
    (n_results : ℕ) : BackendLegalContextBundle :=
  { civil_code := backend_search_civil_code resp,
    criminal_code := backend_search_criminal_code para qe rows n_results }

/-- IEEE `==` on two similarity floats, as CPython's tuple comparison
uses it: false whenever either side is NaN (a NaN compares unequal even
to itself); finite values compare equal iff their represented reals are
equal, i.e. iff their keys are equal (`simKey_eq_iff_real`). -/
def pySimEq (s t : SimVal) : Bool :=
  decide (0 < s.den ∧ 0 < t.den ∧ simKey s = simKey t)

/-- IEEE `<` on two similarity floats: false whenever either side is NaN;
finite values compare by their represented reals, i.e. by key
(`simKey_lt_iff_real`). -/
def pySimLt (s t : SimVal) : Bool :=
  decide (0 < s.den ∧ 0 < t.den ∧ simKey s < simKey t)

/-- CPython `<` on two `(similarity, index)` tuples: find the first
component where they differ under `==` (a NaN similarity differs from
everything) and compare there. -/
def pyPairLt (x y : SimVal × ℕ) : Bool :=
  if pySimEq x.1 y.1 then decide (x.2 < y.2) else pySimLt x.1 y.1

/-- The maximal initial ascending run of CPython's `count_run`: keep
extending while the next element is not `<` the previous one; returns the
run and the remainder. -/
def pyAscRun {α : Type} (lt : α → α → Bool) : α → List α → List α × List α
  | prev, [] => ([prev], [])
  | prev, x :: rest =>
      if lt x prev then ([prev], x :: rest)
      else
        let r := pyAscRun lt x rest
        (prev :: r.1, r.2)

/-- The maximal initial strictly descending run of CPython's `count_run`:
keep extending while the next element is `<` the previous one. -/
def pyDescRun {α : Type} (lt : α → α → Bool) : α → List α → List α × List α
  | prev, [] => ([prev], [])
  | prev, x :: rest =>
      if lt x prev then
        let r := pyDescRun lt x rest
        (prev :: r.1, r.2)
      else ([prev], x :: rest)

/-- The binary search of CPython's `binarysort`: narrow `[L, R)` with
`M = L + (R - L) / 2`, moving left exactly when `pivot < a[M]`; the final
`L` is the insertion point (after equal elements: stable). -/
def pyBinSearch {α : Type} (lt : α → α → Bool) (pivot : α) (ps : List α) (L R : ℕ) : ℕ :=
  if h : L < R then
    if lt pivot (ps.getD (L + (R - L) / 2) pivot) then
      pyBinSearch lt pivot ps L (L + (R - L) / 2)
    else
      pyBinSearch lt pivot ps (L + (R - L) / 2 + 1) R
  else L
termination_by R - L
decreasing_by
  · omega
  · omega

/-- Insert an element at a position (CPython's memmove-and-store). -/
def pyInsertAt {α : Type} (i : ℕ) (x : α) (l : List α) : List α := l.take i ++ x :: l.drop i

/-- CPython's `binarysort`: binary-insert each remaining element, in
order, into the already-sorted prefix. -/
def pyBinarySort {α : Type} (lt : α → α → Bool) : List α → List α → List α
  | ps, [] => ps
  | ps, x :: rest =>
      pyBinarySort lt (pyInsertAt (pyBinSearch lt x ps 0 ps.length) x ps) rest

/-- CPython `list.sort` (ascending) as it executes on fewer than 64
elements: detect the initial natural run (reversing a strictly descending
one) and binary-insert the rest.  For 64 or more elements CPython splits
the tail into further runs and merges them; with a consistent comparator
that produces the same stable result, so the difference is invisible
there, and no claim here exercises an inconsistent comparator at that
size. -/
def pyListSortAsc {α : Type} (lt : α → α → Bool) : List α → List α
  | [] => []
  | a :: rest =>
      match rest with
      | [] => [a]
      | b :: rest2 =>
          if lt b a then
            let r := pyDescRun lt a (b :: rest2)
            pyBinarySort lt r.1.reverse r.2
          else
            let r := pyAscRun lt a (b :: rest2)
            pyBinarySort lt r.1 r.2

/-- CPython `list.sort(reverse=True)`: reverse the list, sort ascending
(stably), reverse again — exactly how CPython implements `reverse=True`.
With the IEEE tuple comparison `pyPairLt` this is the faithful model of
line 342's `similarities.sort(reverse=True)`, NaN similarities included;
when every similarity is finite the comparisons are consistent and the
result is the unique descending order modelled by
`List.insertionSort rankRel`. -/
def pyListSortReverse {α : Type} (lt : α → α → Bool) (l : List α) : List α :=
  (pyListSortAsc lt l.reverse).reverse

/-- Lines 332–353 of `RealVectorDB.search_civil_code` with the sort
modelled by CPython's actual algorithm (`pyListSortReverse` with
`pyPairLt`) instead of the unique-descending-order characterisation used
by `search_civil_code_loaded`.  The two coincide whenever the query and
all stored embeddings have positive norm; with a zero-norm stored
embedding the NaN similarity makes the element comparisons inconsistent
and only this version tracks what CPython does. -/
def py_search_civil_code_loaded (documents metadatas : List String)
    (embs : List Vec) (qe : Vec) (n_results : ℕ) : List CivilEntry :=
  let top := (pyListSortReverse pyPairLt (simPairs qe embs)).take n_results
  let results := (top.filter (fun p => simGtThreshold p.1)).map (fun p =>
    { text := documents.getD p.2 "",
      metadata := metadatas.getD p.2 "",
      similarity := p.1 : CivilEntry })
  if results.isEmpty then fallback_civil_context else results

/-- Pointwise difference of two vectors (auxiliary for the Cauchy–Schwarz
argument). -/
def vsub (a b : Vec) : Vec := List.zipWith (fun x y => x - y) a b

/-- Scalar multiple of a vector (auxiliary). -/
def smulVec (c : ℚ) (a : Vec) : Vec := a.map (fun x => c * x)

theorem dot_nil_left (b : Vec) : dot [] b = 0 := rfl

theorem dot_nil_right (a : Vec) : dot a [] = 0 := by
  cases a <;> rfl

theorem dot_cons (x y : ℚ) (a b : Vec) : dot (x :: a) (y :: b) = x * y + dot a b := by
  simp [dot]

theorem dot_comm (a b : Vec) : dot a b = dot b a := by
  induction a generalizing b with
  | nil => simp [dot_nil_left, dot_nil_right]
  | cons x a ih =>
      cases b with
      | nil => simp [dot_nil_left, dot_nil_right]
      | cons y b => simp [dot_cons, ih, mul_comm]

theorem normSq_cons (x : ℚ) (a : Vec) : normSq (x :: a) = x * x + normSq a := by
  simp [normSq, dot_cons]

theorem normSq_nonneg (a : Vec) : 0 ≤ normSq a := by
  induction a with
  | nil => simp [normSq, dot_nil_left]
  | cons x a ih => rw [normSq_cons]; exact add_nonneg (mul_self_nonneg x) ih

theorem normSq_eq_zero_entries {a : Vec} (h : normSq a = 0) : ∀ x ∈ a, x = 0 := by
  induction a with
  | nil => simp
  | cons y a ih =>
      rw [normSq_cons] at h
      have h1 : y * y = 0 ∧ normSq a = 0 := by
        constructor
        · nlinarith [normSq_nonneg a, mul_self_nonneg y]
        · nlinarith [normSq_nonneg a, mul_self_nonneg y]
      intro x hx
      rcases List.mem_cons.1 hx with rfl | hx
      · exact mul_self_eq_zero.1 h1.1
      · exact ih h1.2 x hx

theorem dot_zero_of_entries_zero {a : Vec} (hz : ∀ x ∈ a, x = 0) (b : Vec) : dot a b = 0 := by
  induction a generalizing b with
  | nil => simp [dot_nil_left]
  | cons x a ih =>
      cases b with
      | nil => simp [dot_nil_right]
      | cons y b =>
          have hx : x = 0 := hz x (by simp)
          rw [dot_cons, hx, ih (fun z hza => hz z (by simp [hza])) b]
          ring

theorem dot_zero_of_normSq_zero {a : Vec} (h : normSq a = 0) (b : Vec) : dot a b = 0 :=
  dot_zero_of_entries_zero (normSq_eq_zero_entries h) b

theorem smulVec_length (c : ℚ) (a : Vec) : (smulVec c a).length = a.length := by
  simp [smulVec]

theorem dot_smul_right (c : ℚ) (a b : Vec) : dot a (smulVec c b) = c * dot a b := by
  induction a generalizing b with
  | nil => simp [dot_nil_left]
  | cons x a ih =>
      cases b with
      | nil => simp [smulVec, dot_nil_right]
      | cons y b => simp [smulVec, dot_cons] at ih ⊢; rw [ih]; ring

theorem dot_smul_left (c : ℚ) (a b : Vec) : dot (smulVec c a) b = c * dot a b := by
  rw [dot_comm, dot_smul_right, dot_comm]

theorem dot_vsub_right {b c : Vec} (hbc : b.length = c.length) (a : Vec) :
    dot a (vsub b c) = dot a b - dot a c := by
  induction a generalizing b c with
  | nil => simp [dot_nil_left]
  | cons x a ih =>
      cases b with
      | nil =>
          cases c with
          | nil => simp [vsub, dot_nil_right]
          | cons _ _ => simp at hbc
      | cons y b =>
          cases c with
          | nil => simp at hbc
          | cons z c =>
              simp only [List.length_cons, Nat.add_right_cancel_iff] at hbc
              simp [vsub, dot_cons] at ih ⊢
              rw [ih hbc]
              ring

theorem dot_vsub_left {a b : Vec} (hab : a.length = b.length) (c : Vec) :
    dot (vsub a b) c = dot a c - dot b c := by
  rw [dot_comm, dot_vsub_right hab, dot_comm a c, dot_comm b c]

theorem vsub_length (a b : Vec) : (vsub a b).length = min a.length b.length := by
  simp [vsub]

theorem normSq_vsub {a b : Vec} (hab : a.length = b.length) :
    normSq (vsub a b) = normSq a - 2 * dot a b + normSq b := by
  unfold normSq
  rw [dot_vsub_left hab, dot_vsub_right hab, dot_vsub_right hab, dot_comm b a]
  ring

theorem normSq_smul (c : ℚ) (a : Vec) : normSq (smulVec c a) = c ^ 2 * normSq a := by
  unfold normSq
  rw [dot_smul_left, dot_smul_right]
  ring

theorem eq_of_vsub_entries_zero : ∀ {a b : Vec}, a.length = b.length →
    (∀ x ∈ vsub a b, x = 0) → a = b
  | [], [], _, _ => rfl
  | x :: a, y :: b, hab, hz => by
      simp only [List.length_cons, Nat.add_right_cancel_iff] at hab
      have hx : x - y = 0 := hz (x - y) (by simp [vsub])
      have ha : a = b :=
        eq_of_vsub_entries_zero hab (fun z hzb => hz z (by simp [vsub] at hzb ⊢; exact Or.inr hzb))
      rw [sub_eq_zero.1 hx, ha]

theorem eq_of_normSq_vsub_zero {a b : Vec} (hab : a.length = b.length)
    (h : normSq (vsub a b) = 0) : a = b :=
  eq_of_vsub_entries_zero hab (normSq_eq_zero_entries h)

/-- Cauchy–Schwarz over rational vectors of equal length. -/
theorem dot_sq_le_normSq_mul {a b : Vec} (hab : a.length = b.length) :
    dot a b ^ 2 ≤ normSq a * normSq b := by
  rcases eq_or_lt_of_le (normSq_nonneg b) with hb | hb
  · have h0 : dot a b = 0 := by rw [dot_comm]; exact dot_zero_of_normSq_zero hb.symm a
    rw [h0, ← hb]
    simp
  · set w : Vec := vsub (smulVec (normSq b) a) (smulVec (dot a b) b) with hw
    have hlen : (smulVec (normSq b) a).length = (smulVec (dot a b) b).length := by
      rw [smulVec_length, smulVec_length, hab]
    have hnn : 0 ≤ normSq w := normSq_nonneg w
    have hexp : normSq w = normSq b * (normSq a * normSq b - dot a b ^ 2) := by
      rw [hw, normSq_vsub hlen, normSq_smul, normSq_smul, dot_smul_left, dot_smul_right]
      ring
    rw [hexp] at hnn
    nlinarith [hnn, hb]

/-- Equality case of Cauchy–Schwarz: a vector realising equality with a
vector of positive norm is its scalar multiple, with the explicit
coefficient `dot a b / normSq b`. -/
theorem eq_smul_of_dot_sq_eq {a b : Vec} (hab : a.length = b.length)
    (hb : 0 < normSq b) (heq : dot a b ^ 2 = normSq a * normSq b) :
    a = smulVec (dot a b / normSq b) b := by
  set w : Vec := vsub (smulVec (normSq b) a) (smulVec (dot a b) b) with hw
  have hlen : (smulVec (normSq b) a).length = (smulVec (dot a b) b).length := by
    rw [smulVec_length, smulVec_length, hab]
  have hexp : normSq w = normSq b * (normSq a * normSq b - dot a b ^ 2) := by
    rw [hw, normSq_vsub hlen, normSq_smul, normSq_smul, dot_smul_left, dot_smul_right]
    ring
  have hzero : normSq w = 0 := by rw [hexp, heq]; ring
  have hvec : smulVec (normSq b) a = smulVec (dot a b) b :=
    eq_of_normSq_vsub_zero hlen hzero
  have hb0 : normSq b ≠ 0 := ne_of_gt hb
  have hcancel : (normSq b)⁻¹ * normSq b = 1 := inv_mul_cancel₀ hb0
  have hid : ∀ x : Vec, smulVec (normSq b)⁻¹ (smulVec (normSq b) x) = x := by
    intro x
    simp [smulVec, List.map_map, Function.comp, ← mul_assoc, hcancel]
  calc a = smulVec (normSq b)⁻¹ (smulVec (normSq b) a) := (hid a).symm
    _ = smulVec (normSq b)⁻¹ (smulVec (dot a b) b) := by rw [hvec]
    _ = smulVec (dot a b / normSq b) b := by
        simp only [smulVec, List.map_map, Function.comp]
        congr 1
        funext q
        field_simp

theorem simKey_eq_mul_abs (s : SimVal) : simKey s = s.num * |s.num| / s.den := by
  unfold simKey
  rcases lt_or_le s.num 0 with h | h
  · rw [if_pos h, abs_of_neg h]
    ring
  · rw [if_neg (not_lt.2 h), abs_of_nonneg h]
    ring

theorem mul_abs_lt_mul_abs_iff {a b : ℝ} : a * |a| < b * |b| ↔ a < b := by
  have mono : StrictMono (fun x : ℝ => x * |x|) := by
    intro x y hxy
    rcases le_or_lt 0 x with hx | hx
    · have hy : (0 : ℝ) ≤ y := le_of_lt (lt_of_le_of_lt hx hxy)
      simp only [abs_of_nonneg hx, abs_of_nonneg hy]
      exact mul_self_lt_mul_self hx hxy
    · rcases le_or_lt 0 y with hy | hy
      · have h1 : x * |x| < 0 := by
          rw [abs_of_neg hx]
          nlinarith
        have h2 : 0 ≤ y * |y| := mul_nonneg hy (abs_nonneg y)
        exact lt_of_lt_of_le h1 h2
      · simp only [abs_of_neg hx, abs_of_neg hy]
        nlinarith
  exact mono.lt_iff_lt

theorem simKey_cast_real {s : SimVal} (hs : 0 < s.den) :
    ((simKey s : ℚ) : ℝ) =
      ((s.num : ℝ) / Real.sqrt (s.den : ℝ)) * |(s.num : ℝ) / Real.sqrt (s.den : ℝ)| := by
  have hds : (0 : ℝ) < (s.den : ℝ) := by exact_mod_cast hs
  have hsq : 0 < Real.sqrt (s.den : ℝ) := Real.sqrt_pos.mpr hds
  have h2 : Real.sqrt (s.den : ℝ) * Real.sqrt (s.den : ℝ) = (s.den : ℝ) :=
    Real.mul_self_sqrt (le_of_lt hds)
  rw [simKey_eq_mul_abs]
  push_cast
  rw [abs_div, abs_of_nonneg (le_of_lt hsq), div_mul_div_comm, h2]

/-- The rational key ordering coincides with the real ordering of the
represented similarity values `num / √den` whenever no NaN is involved:
this is the lemma that justifies performing all of Python's float
comparisons on `simKey`. -/
theorem simKey_lt_iff_real {s t : SimVal} (hs : 0 < s.den) (ht : 0 < t.den) :
    simKey s < simKey t ↔
      (s.num : ℝ) / Real.sqrt (s.den : ℝ) < (t.num : ℝ) / Real.sqrt (t.den : ℝ) := by
  rw [show (simKey s < simKey t ↔ ((simKey s : ℚ) : ℝ) < ((simKey t : ℚ) : ℝ)) from
        (Rat.cast_lt (K := ℝ)).symm,
      simKey_cast_real hs, simKey_cast_real ht, mul_abs_lt_mul_abs_iff]

/-- The `> 0.3` relevance test of the Python searches agrees with the real
ordering: a finite similarity passes `simGtThreshold` iff its represented
real value exceeds 3/10. -/
theorem simGtThreshold_iff_real {s : SimVal} (hs : 0 < s.den) :
    simGtThreshold s = true ↔ (3 / 10 : ℝ) < (s.num : ℝ) / Real.sqrt (s.den : ℝ) := by
  have h1 : simGtThreshold s = true ↔ (9 / 100 : ℚ) < simKey s := by
    simp [simGtThreshold]
  have hkey : (9 / 100 : ℚ) = simKey { num := 3 / 10, den := 1 } := by
    norm_num [simKey]
  rw [h1, hkey, simKey_lt_iff_real (by norm_num) hs]
  norm_num

/-- A NaN similarity (zero denominator) fails the `> 0.3` test, exactly as
`nan > 0.3` is `False` in Python. -/
theorem simGtThreshold_nan {s : SimVal} (hs : s.den = 0) : simGtThreshold s = false := by
  simp only [simGtThreshold, decide_eq_false_iff_not, not_lt, simKey, hs, div_zero, neg_zero]
  split <;> norm_num

theorem rankedSimilarities_perm (qe : Vec) (embs : List Vec) :
    List.Perm (rankedSimilarities qe embs) (simPairs qe embs) :=
  List.perm_insertionSort rankRel (simPairs qe embs)

theorem rankedSimilarities_sorted (qe : Vec) (embs : List Vec) :
    List.Sorted rankRel (rankedSimilarities qe embs) :=
  List.sorted_insertionSort rankRel (simPairs qe embs)

theorem simPairs_map_snd (qe : Vec) (embs : List Vec) :
    (simPairs qe embs).map Prod.snd = List.range embs.length := by
  unfold simPairs
  rw [List.map_map]
  exact List.enum_map_fst embs

theorem mem_simPairs {qe : Vec} {embs : List Vec} {y : SimVal × ℕ} :
    y ∈ simPairs qe embs ↔ ∃ v, embs.get? y.2 = some v ∧ y.1 = cosineSim qe v := by
  constructor
  · intro hy
    rcases List.mem_map.1 hy with ⟨p, hp, hpy⟩
    have hg : embs.get? p.1 = some p.2 := List.mem_enum_iff_get?.1 hp
    refine ⟨p.2, ?_, ?_⟩
    · rw [← hpy]
      exact hg
    · rw [← hpy]
  · rintro ⟨v, hv, hy1⟩
    refine List.mem_map.2 ⟨(y.2, v), List.mem_enum_iff_get?.2 hv, ?_⟩
    cases y
    simp_all

theorem simPairs_mem_of_get {qe : Vec} {embs : List Vec} {i : ℕ} {v : Vec}
    (h : embs.get? i = some v) : (cosineSim qe v, i) ∈ simPairs qe embs :=
  mem_simPairs.2 ⟨v, h, rfl⟩

theorem rankRel_key_le {x y : SimVal × ℕ} (h : rankRel x y) : simKey y.1 ≤ simKey x.1 := by
  rcases h with h | ⟨h, _⟩
  · exact le_of_lt h
  · exact le_of_eq h.symm

theorem backendRankRel_key_le {x y : (ℕ × SimVal) × ℕ} (h : backendRankRel x y) :
    simKey y.1.2 ≤ simKey x.1.2 := by
  rcases h with h | ⟨h, _⟩
  · exact le_of_lt h
  · exact le_of_eq h.symm

/-- If one pair strictly dominates (by key) every pair with another index,
and indices are distinct across the list, the sort puts it first. -/
theorem insertionSort_head_of_strict_max {l : List (SimVal × ℕ)} {x : SimVal × ℕ}
    (hx : x ∈ l) (hnd : (l.map Prod.snd).Nodup)
    (hmax : ∀ y ∈ l, y.2 ≠ x.2 → simKey y.1 < simKey x.1) :
    (List.insertionSort rankRel l).head? = some x := by
  have hperm := List.perm_insertionSort rankRel l
  have hsorted := List.sorted_insertionSort rankRel l
  have hxr : x ∈ List.insertionSort rankRel l := hperm.mem_iff.2 hx
  cases hr : List.insertionSort rankRel l with
  | nil => rw [hr] at hxr; simp at hxr
  | cons h t =>
      have hhl : h ∈ l := hperm.subset (by rw [hr]; simp)
      by_cases hhx : h = x
      · rw [hhx]
        rfl
      · have hsnd : h.2 ≠ x.2 := by
          intro hs
          exact hhx (List.inj_on_of_nodup_map hnd hhl hx hs)
        have hklt : simKey h.1 < simKey x.1 := hmax h hhl hsnd
        have hxt : x ∈ t := by
          rw [hr] at hxr
          rcases List.mem_cons.1 hxr with hx1 | hx1
          · exact absurd hx1.symm hhx
          · exact hx1
        have hrel : rankRel h x := by
          rw [hr] at hsorted
          exact (List.pairwise_cons.1 hsorted).1 x hxt
        rcases hrel with hlt | ⟨heq, _⟩
        · exact absurd hklt (lt_asymm hlt)
        · rw [heq] at hklt
          exact absurd hklt (lt_irrefl _)

theorem cosineSim_den_pos {a b : Vec} (ha : 0 < normSq a) (hb : 0 < normSq b) :
    0 < (cosineSim a b).den := mul_pos ha hb

/-- Cosine similarity of a vector of positive norm with itself represents
the real number 1: its key is exactly 1. -/
theorem simKey_cosineSim_self {q : Vec} (hq : 0 < normSq q) :
    simKey (cosineSim q q) = 1 := by
  have hnum : (cosineSim q q).num = normSq q := rfl
  have hden : (cosineSim q q).den = normSq q * normSq q := rfl
  unfold simKey
  rw [hnum, hden, if_neg (not_lt.2 (le_of_lt hq))]
  field_simp
  ring

/-- Strict Cauchy–Schwarz on keys: the similarity of `q` with any equal
length vector `v` of positive norm that is not a positive scalar multiple
of `q` has key strictly below 1. -/
theorem simKey_cosineSim_lt_one {q v : Vec} (hq : 0 < normSq q) (hv : 0 < normSq v)
    (hlen : q.length = v.length) (hnp : ¬ ∃ c : ℚ, 0 < c ∧ v = smulVec c q) :
    simKey (cosineSim q v) < 1 := by
  have hnum : (cosineSim q v).num = dot q v := rfl
  have hden : (cosineSim q v).den = normSq q * normSq v := rfl
  have hdenpos : 0 < normSq q * normSq v := mul_pos hq hv
  unfold simKey
  rw [hnum, hden]
  rcases lt_or_le (dot q v) 0 with hd | hd
  · rw [if_pos hd]
    have : 0 ≤ dot q v ^ 2 / (normSq q * normSq v) :=
      div_nonneg (sq_nonneg _) (le_of_lt hdenpos)
    linarith
  · rw [if_neg (not_lt.2 hd)]
    rw [div_lt_one hdenpos]
    rcases lt_or_eq_of_le (dot_sq_le_normSq_mul hlen) with hcs | hcs
    · exact hcs
    · exfalso
      have hd0 : dot q v ≠ 0 := by
        intro h0
        rw [h0] at hcs
        simp at hcs
        rcases hcs with h | h
        · exact absurd h (ne_of_gt hq)
        · exact absurd h (ne_of_gt hv)
      have hdpos : 0 < dot q v := lt_of_le_of_ne hd (Ne.symm hd0)
      have hvq : dot v q ^ 2 = normSq v * normSq q := by
        rw [dot_comm v q, hcs]
        ring
      have hprop := eq_smul_of_dot_sq_eq hlen.symm hq hvq
      apply hnp
      refine ⟨dot v q / normSq q, ?_, hprop⟩
      rw [dot_comm v q]
      exact div_pos hdpos hq

theorem fallback_civil_context_ne_nil : fallback_civil_context ≠ [] := by
  unfold fallback_civil_context
  exact List.cons_ne_nil _ _

theorem fallback_criminal_context_ne_nil : fallback_criminal_context ≠ [] := by
  unfold fallback_criminal_context
  exact List.cons_ne_nil _ _

theorem search_civil_code_loaded_ne_nil (documents metadatas : List String)
    (embs : List Vec) (qe : Vec) (n : ℕ) :
    search_civil_code_loaded documents metadatas embs qe n ≠ [] := by
  unfold search_civil_code_loaded
  dsimp only
  split
  · exact fallback_civil_context_ne_nil
  · next h =>
      intro hnil
      rw [hnil] at h
      simp at h

theorem search_criminal_code_loaded_ne_nil (documents metadatas : List String)
    (embs : List Vec) (qe : Vec) (n : ℕ) :
    search_criminal_code_loaded documents metadatas embs qe n ≠ [] := by
  unfold search_criminal_code_loaded
  dsimp only
  split
  · exact fallback_criminal_context_ne_nil
  · next h =>
      intro hnil
      rw [hnil] at h
      simp at h

theorem search_civil_with_corpus_ne_nil (c : CivilCorpus) (qe : Vec) (n : ℕ) :
    search_civil_with_corpus c qe n ≠ [] := by
  unfold search_civil_with_corpus
  cases c.embeddings
  · exact fallback_civil_context_ne_nil
  · exact search_civil_code_loaded_ne_nil _ _ _ _ _

theorem search_criminal_with_corpus_ne_nil (c : CriminalCorpus) (qe : Vec) (n : ℕ) :
    search_criminal_with_corpus c qe n ≠ [] := by
  unfold search_criminal_with_corpus
  cases c.embeddings
  · exact fallback_criminal_context_ne_nil
  · exact search_criminal_code_loaded_ne_nil _ _ _ _ _

theorem search_civil_code_ne_nil (env : CivilLoadEnv) (qe : Vec) (n : ℕ)
    (st : RealVectorDBState) : (search_civil_code env qe n st).2 ≠ [] := by
  unfold search_civil_code
  split
  · cases env st.civil_load_calls
    · exact fallback_civil_context_ne_nil
    · exact search_civil_with_corpus_ne_nil _ _ _
  · cases st.civil_embeddings
    · exact fallback_civil_context_ne_nil
    · exact search_civil_with_corpus_ne_nil _ _ _

theorem search_criminal_code_ne_nil (env : CriminalLoadEnv) (qe : Vec) (n : ℕ)
    (st : RealVectorDBState) : (search_criminal_code env qe n st).2 ≠ [] := by
  unfold search_criminal_code
  split
  · cases env st.criminal_load_calls
    · exact fallback_criminal_context_ne_nil
    · exact search_criminal_with_corpus_ne_nil _ _ _
  · cases st.criminal_embeddings
    · exact fallback_criminal_context_ne_nil
    · exact search_criminal_with_corpus_ne_nil _ _ _

/-- C1 (counterexample): the claim also covers the backend
`VectorDatabase.get_legal_context`, which has no fallback substitution at
all: with an empty embeddings table (criminal side) and a failed ChromaDB
query (civil side), both lists of the returned bundle are empty, for any
`n_results >= 1` — here `n_results = 3`. -/
theorem C1_backend_counterexample :
    (backend_get_legal_context none (fun _ => none) [] [] 3).civil_code = [] ∧
    (backend_get_legal_context none (fun _ => none) [] [] 3).criminal_code = [] :=
  ⟨rfl, rfl⟩

/-- C1 (amended): for the `RealVectorDB.get_legal_context` of
`vector_db_real.py` the claim holds: for every loader environment, every
query embedding pair, every `n_results` and every instance state, the
returned bundle has non-empty `civil_code` and `criminal_code` lists —
every path of both searches ends in either a ranked non-empty result or
the fixed non-empty fallback context, and the function is total (never
raises).  The backend variant, by contrast, returns empty lists
(see the counterexample). -/
theorem C1_real_bundle_nonempty (envC : CivilLoadEnv) (envK : CriminalLoadEnv)
    (qeC qeK : Vec) (n_results : ℕ) (st : RealVectorDBState) :
    (get_legal_context envC envK qeC qeK n_results st).2.civil_code ≠ [] ∧
    (get_legal_context envC envK qeC qeK n_results st).2.criminal_code ≠ [] :=
  ⟨search_civil_code_ne_nil envC qeC n_results st,
   search_criminal_code_ne_nil envK qeK (max 1 (n_results / 2)) _⟩

/-- C2 (counterexample): with a loaded corpus of one stored passage whose
similarity to the query is 0 (≤ 0.3) and `k = 1`, the search does not
return at most `k` entries: the full four-entry fallback context is
substituted, so the result has length 4 > 1. -/
theorem C2_fallback_exceeds_k_counterexample :
    1 < (search_civil_code_loaded ["doc"] ["meta"] [[0, 1]] [1, 0] 1).length := by
  have hd : dot ([1, 0] : Vec) [0, 1] = 0 := by
    norm_num [dot]
  have hs : simGtThreshold (cosineSim [1, 0] [0, 1]) = false := by
    simp only [simGtThreshold, decide_eq_false_iff_not, not_lt, cosineSim, hd, simKey]
    norm_num
  have hranked : rankedSimilarities ([1, 0] : Vec) [[0, 1]] = [(cosineSim [1, 0] [0, 1], 0)] :=
    rfl
  unfold search_civil_code_loaded
  dsimp only
  rw [hranked]
  simp [hs, fallback_civil_context]

/-- C2 (amended): for a loaded corpus, the RealVectorDB searches return at
most `k` entries, each with similarity strictly above the 0.3 threshold,
*except* when no top-`k` passage clears the threshold — then the fixed
fallback context (4 civil / 2 criminal entries) is substituted in full and
may exceed `k`. -/
theorem C2_topk_threshold_amended (documents metadatas : List String) (embs : List Vec)
    (qe : Vec) (k : ℕ) :
    (search_civil_code_loaded documents metadatas embs qe k = fallback_civil_context ∨
      ((search_civil_code_loaded documents metadatas embs qe k).length ≤ k ∧
        ∀ e ∈ search_civil_code_loaded documents metadatas embs qe k,
          simGtThreshold e.similarity = true)) ∧
    (search_criminal_code_loaded documents metadatas embs qe k = fallback_criminal_context ∨
      ((search_criminal_code_loaded documents metadatas embs qe k).length ≤ k ∧
        ∀ e ∈ search_criminal_code_loaded documents metadatas embs qe k,
          simGtThreshold e.similarity = true)) := by
  constructor
  · unfold search_civil_code_loaded
    dsimp only
    split
    · exact Or.inl rfl
    · refine Or.inr ⟨?_, ?_⟩
      · rw [List.length_map]
        exact le_trans (List.length_filter_le _ _) (List.length_take_le _ _)
      · intro e he
        rcases List.mem_map.1 he with ⟨x, hx, rfl⟩
        show simGtThreshold x.1 = true
        exact (List.mem_filter.1 hx).2
  · unfold search_criminal_code_loaded
    dsimp only
    split
    · exact Or.inl rfl
    · refine Or.inr ⟨?_, ?_⟩
      · rw [List.length_map]
        exact le_trans (List.length_filter_le _ _) (List.length_take_le _ _)
      · intro e he
        rcases List.mem_map.1 he with ⟨x, hx, rfl⟩
        show simGtThreshold x.1 = true
        exact (List.mem_filter.1 hx).2

theorem cosineSim_nan_of_normSq_zero {a b : Vec} (h : normSq a = 0 ∨ normSq b = 0) :
    cosineSim a b = { num := 0, den := 0 } := by
  rcases h with ha | hb
  · have hnum : dot a b = 0 := dot_zero_of_normSq_zero ha b
    simp [cosineSim, hnum, ha]
  · have hnum : dot a b = 0 := by
      rw [dot_comm]
      exact dot_zero_of_normSq_zero hb a
    simp [cosineSim, hnum, hb]

/-- C5 (counterexample): `_cosine_similarity` on the zero vector `[0]`
against `[1]` computes `0.0 / 0.0`, i.e. IEEE NaN — not the value 0.0 the
claim demands. -/
theorem C5_zero_norm_counterexample :
    cosineSim [0] [1] = { num := 0, den := 0 } ∧
    SimVal.isNaN { num := 0, den := 0 } = true := by
  constructor
  · apply cosineSim_nan_of_normSq_zero
    left
    norm_num [normSq, dot]
  · simp [SimVal.isNaN]

/-- C5 (amended): when either input of `_cosine_similarity` has zero norm,
the computation does not raise (numpy float division only warns; the model
is total) but yields NaN (`0.0/0.0`), not 0.0; the NaN value then fails
the `> 0.3` relevance comparison (as `nan > 0.3` is `False` in Python)
instead of participating in the sort as 0.0 would. -/
theorem C5_zero_norm_nan_amended (a b : Vec) (h : normSq a = 0 ∨ normSq b = 0) :
    cosineSim a b = { num := 0, den := 0 } ∧
    (cosineSim a b).isNaN = true ∧
    simGtThreshold (cosineSim a b) = false := by
  have hc := cosineSim_nan_of_normSq_zero h
  refine ⟨hc, ?_, ?_⟩
  · rw [hc]
    simp [SimVal.isNaN]
  · rw [hc]
    exact simGtThreshold_nan rfl

/-- C5 witness: the amended statement evaluated at the concrete zero-norm
pair `[0, 0]`, `[3, 4]`. -/
theorem C5_zero_norm_nan_amended_witness :
    cosineSim [0, 0] [3, 4] = { num := 0, den := 0 } ∧
    (cosineSim [0, 0] [3, 4]).isNaN = true ∧
    simGtThreshold (cosineSim [0, 0] [3, 4]) = false :=
  C5_zero_norm_nan_amended [0, 0] [3, 4] (Or.inl (by norm_num [normSq, dot]))

theorem search_civil_code_latched (env : CivilLoadEnv) (qe : Vec) (n : ℕ)
    (st : RealVectorDBState) (hemb : st.civil_embeddings = none)
    (hfail : st.civil_load_failed = true) :
    search_civil_code env qe n st = (st, fallback_civil_context) := by
  unfold search_civil_code
  rw [hemb, hfail]
  simp

theorem search_civil_code_first_failure (env : CivilLoadEnv) (qe : Vec) (n : ℕ)
    (st : RealVectorDBState) (hemb : st.civil_embeddings = none)
    (hfail : st.civil_load_failed = false) (henv : env st.civil_load_calls = none) :
    search_civil_code env qe n st =
      ({ st with civil_load_failed := true, civil_load_calls := st.civil_load_calls + 1 },
       fallback_civil_context) := by
  unfold search_civil_code
  rw [hemb, hfail, henv]
  simp

theorem iterate_civil_queries_latched (env : CivilLoadEnv) (qe : Vec) (n : ℕ)
    (k : ℕ) (st : RealVectorDBState) (hemb : st.civil_embeddings = none)
    (hfail : st.civil_load_failed = true) :
    iterate_civil_queries env qe n k st = st := by
  induction k with
  | zero => rfl
  | succ k ih =>
      show iterate_civil_queries env qe n k (search_civil_code env qe n st).1 = st
      rw [search_civil_code_latched env qe n st hemb hfail]
      exact ih

/-- C6 (counterexample): with a persistently failing civil loader
(`env ≡ none`: store missing), `_load_civil_code_embeddings` is invoked
twice, not at most once — once eagerly from `__init__` (which does not set
the latch) and once more from the first query (which does): after one
query the instrumentation counter reads 2. -/
theorem C6_load_called_twice_counterexample :
    (iterate_civil_queries (fun _ => none) [] 3 1
        (initialize_databases (fun _ => none) (fun _ => none))).civil_load_calls = 2 ∧
    ¬ ((iterate_civil_queries (fun _ => none) [] 3 1
        (initialize_databases (fun _ => none) (fun _ => none))).civil_load_calls ≤ 1) := by
  have h : (iterate_civil_queries (fun _ => none) [] 3 1
      (initialize_databases (fun _ => none) (fun _ => none))).civil_load_calls = 2 := rfl
  exact ⟨h, by rw [h]; omega⟩

/-- C6 (amended): with a persistently failing civil loader the load
function is called at most twice per process: once from `__init__`
(latch not set) and once from the first query, which latches
`_civil_load_failed`; from then on the state is a fixed point and every
further query returns the fallback context without another load attempt. -/
theorem C6_latch_amended (envC : CivilLoadEnv) (envK : CriminalLoadEnv) (qe : Vec)
    (n k : ℕ) (henv : ∀ j, envC j = none) :
    (iterate_civil_queries envC qe n k (initialize_databases envK envC)).civil_load_calls
        = (if k = 0 then 1 else 2) ∧
    (1 ≤ k →
      (search_civil_code envC qe n
          (iterate_civil_queries envC qe n k (initialize_databases envK envC))).1 =
        iterate_civil_queries envC qe n k (initialize_databases envK envC) ∧
      (search_civil_code envC qe n
          (iterate_civil_queries envC qe n k (initialize_databases envK envC))).2 =
        fallback_civil_context) := by
  set st0 := initialize_databases envK envC with hst0
  have hemb0 : st0.civil_embeddings = none := by
    rw [hst0]
    exact henv 0
  have hfail0 : st0.civil_load_failed = false := rfl
  have hcalls0 : st0.civil_load_calls = 1 := rfl
  have hstep : search_civil_code envC qe n st0 =
      ({ st0 with civil_load_failed := true, civil_load_calls := st0.civil_load_calls + 1 },
       fallback_civil_context) :=
    search_civil_code_first_failure envC qe n st0 hemb0 hfail0 (henv _)
  cases k with
  | zero =>
      constructor
      · simpa using hcalls0
      · intro h
        exact absurd h (by omega)
  | succ k =>
      have hlatch : iterate_civil_queries envC qe n (k + 1) st0 =
          { st0 with civil_load_failed := true, civil_load_calls := st0.civil_load_calls + 1 } := by
        show iterate_civil_queries envC qe n k (search_civil_code envC qe n st0).1 = _
        rw [hstep]
        exact iterate_civil_queries_latched envC qe n k _ hemb0 rfl
      constructor
      · rw [hlatch]
        simp [hcalls0]
      · intro _
        rw [hlatch]
        have := search_civil_code_latched envC qe n
          { st0 with civil_load_failed := true, civil_load_calls := st0.civil_load_calls + 1 }
          hemb0 rfl
        exact ⟨by rw [this], by rw [this]⟩

/-- C6 witness: the amended statement at the concrete failing environment,
after three queries. -/
theorem C6_latch_amended_witness :
    (iterate_civil_queries (fun _ => none) [] 3 3
        (initialize_databases (fun _ => none) (fun _ => none))).civil_load_calls
        = (if 3 = 0 then 1 else 2) ∧
    (1 ≤ 3 →
      (search_civil_code (fun _ => none) [] 3
          (iterate_civil_queries (fun _ => none) [] 3 3
            (initialize_databases (fun _ => none) (fun _ => none)))).1 =
        iterate_civil_queries (fun _ => none) [] 3 3
          (initialize_databases (fun _ => none) (fun _ => none)) ∧
      (search_civil_code (fun _ => none) [] 3
          (iterate_civil_queries (fun _ => none) [] 3 3
            (initialize_databases (fun _ => none) (fun _ => none)))).2 =
        fallback_civil_context) :=
  C6_latch_amended (fun _ => none) (fun _ => none) [] 3 3 (fun _ => rfl)

theorem length_filterMap_of_isSome {α β : Type} (f : α → Option β) (l : List α)
    (h : ∀ a ∈ l, (f a).isSome = true) : (l.filterMap f).length = l.length := by
  induction l with
  | nil => rfl
  | cons a l ih =>
      have ha := h a (by simp)
      rcases Option.isSome_iff_exists.1 ha with ⟨b, hb⟩
      rw [List.filterMap_cons, hb]
      simp only [List.length_cons]
      rw [ih (fun x hx => h x (by simp [hx]))]

/-- C7 (counterexample): the claim also covers the backend
`VectorDatabase.get_legal_context`, which passes the *full* `n_results`
budget to the criminal search, not `max(1, n_results // 2)`: with
`n_results = 3` and three decodable rows the criminal list has 3 entries,
exceeding the `max(1, 3 // 2) = 1` the claim asserts. -/
theorem C7_backend_counterexample :
    (backend_get_legal_context none (fun _ => some ("1", "t")) [1]
        [(1, [0, 0, 128, 63]), (2, [0, 0, 128, 63]), (3, [0, 0, 128, 63])]
        3).criminal_code.length = 3 ∧
    ¬ (3 ≤ max 1 (3 / 2)) := by
  constructor
  · show (backend_search_criminal_code (fun _ => some ("1", "t")) [1]
        [(1, [0, 0, 128, 63]), (2, [0, 0, 128, 63]), (3, [0, 0, 128, 63])] 3).length = 3
    unfold backend_search_criminal_code
    rw [if_neg (by simp)]
    have hsims : (backend_similarities [1]
        [(1, [0, 0, 128, 63]), (2, [0, 0, 128, 63]), (3, [0, 0, 128, 63])]).length = 3 := by
      unfold backend_similarities
      simp [np_frombuffer_f32, decode_f32_list]
    have hsorted : (List.insertionSort backendRankRel (backend_similarities [1]
        [(1, [0, 0, 128, 63]), (2, [0, 0, 128, 63]), (3, [0, 0, 128, 63])])).length = 3 := by
      rw [(List.perm_insertionSort backendRankRel _).length_eq]
      exact hsims
    rw [length_filterMap_of_isSome]
    · rw [List.length_take, hsorted]
      rfl
    · intro a _
      rfl
  · decide

/-- C7 (amended): `RealVectorDB.get_legal_context` does invoke the civil
search with the full `n_results` budget and the criminal search with
exactly `max(1, n_results // 2)`; the backend
`VectorDatabase.get_legal_context`, by contrast, passes the full
`n_results` to both searches (see the counterexample). -/
theorem C7_budget_amended (envC : CivilLoadEnv) (envK : CriminalLoadEnv)
    (qeC qeK : Vec) (n_results : ℕ) (st : RealVectorDBState)
    (resp : Option ChromaQueryResponse) (para : ℕ → Option (String × String))
    (qe : Vec) (rows : List (ℕ × List ℕ)) :
    (get_legal_context envC envK qeC qeK n_results st).2.civil_code =
        (search_civil_code envC qeC n_results st).2 ∧
    (get_legal_context envC envK qeC qeK n_results st).2.criminal_code =
        (search_criminal_code envK qeK (max 1 (n_results / 2))
            (search_civil_code envC qeC n_results st).1).2 ∧
    (backend_get_legal_context resp para qe rows n_results).criminal_code =
        backend_search_criminal_code para qe rows n_results :=
  ⟨rfl, rfl, rfl⟩

/-- C8 (counterexample): the placeholder query embedding produced when the
provider fails is *not* deterministic in the input text: it is drawn from
the global generator, whose state advances, so two placeholder generations
for the same text (back to back) yield different vectors. -/
theorem C8_nondeterministic_counterexample :
    (create_query_embedding (fun _ => none) "smluvni podminky" 0).1 ≠
      (create_query_embedding (fun _ => none) "smluvni podminky"
        (create_query_embedding (fun _ => none) "smluvni podminky" 0).2).1 := by
  have h1 : (create_query_embedding (fun _ => none) "smluvni podminky" 0).1.getD 0 0
      = npRandomDraw 0 := by
    show ((List.range 384).map (fun i => npRandomDraw (0 + i))).getD 0 0 = npRandomDraw 0
    simp [List.getD_eq_getElem?_getD, List.getElem?_range]
  have h2 : (create_query_embedding (fun _ => none) "smluvni podminky"
      (create_query_embedding (fun _ => none) "smluvni podminky" 0).2).1.getD 0 0
      = npRandomDraw 384 := by
    show ((List.range 384).map (fun i => npRandomDraw (384 + i))).getD 0 0 = npRandomDraw 384
    simp [List.getD_eq_getElem?_getD, List.getElem?_range]
  intro heq
  have h := congrArg (fun l : Vec => l.getD 0 0) heq
  simp only at h
  rw [h1, h2] at h
  norm_num [npRandomDraw] at h

/-- C8 (amended): the placeholder vector substituted on provider failure
does have the expected dimensionality (384) and does not depend on the
input text at all — in particular two generations for the same text *at
the same generator state* coincide — but it is drawn from the unseeded
global generator rather than a fixed-seed generator keyed by a hash of
the text, so it is not reproducible across calls (see the
counterexample). -/
theorem C8_placeholder_amended (provider : String → Option Vec) (t1 t2 : String)
    (s : ℕ) (h1 : provider t1 = none) (h2 : provider t2 = none) :
    (create_query_embedding provider t1 s).1.length = 384 ∧
    create_query_embedding provider t1 s = create_query_embedding provider t2 s := by
  unfold create_query_embedding
  rw [h1, h2]
  constructor
  · show (npRandomRandom s 384).1.length = 384
    simp [npRandomRandom]
  · rfl

/-- C8 witness: the amended statement at a concrete failing provider, two
texts and generator state 0. -/
theorem C8_placeholder_amended_witness :
    (create_query_embedding (fun _ => none) "a" 0).1.length = 384 ∧
    create_query_embedding (fun _ => none) "a" 0 =
      create_query_embedding (fun _ => none) "b" 0 :=
  C8_placeholder_amended (fun _ => none) "a" "b" 0 rfl rfl

theorem load_criminal_rows_eq (rows : List (String × String × List ℕ)) :
    load_criminal_rows rows =
      ((rows.filter (fun r => valid_blob r.2.2)).map (fun r => r.2.1),
       (rows.filter (fun r => valid_blob r.2.2)).map (fun r => decode_f32_list r.2.2),
       (rows.filter (fun r => valid_blob r.2.2)).map (fun r => r.1)) := by
  induction rows with
  | nil => rfl
  | cons r rest ih =>
      obtain ⟨c, t, b⟩ := r
      by_cases hb : b.isEmpty = true
      · have hv : valid_blob b = false := by simp [valid_blob, hb]
        simp [load_criminal_rows, hb, List.filter_cons, hv, ih]
      · by_cases h4 : b.length % 4 = 0
        · have hv : valid_blob b = true := by simp [valid_blob, hb, h4]
          have hf : np_frombuffer_f32 b = some (decode_f32_list b) := by
            simp [np_frombuffer_f32, h4]
          simp [load_criminal_rows, hb, hf, List.filter_cons, hv, ih]
        · have hv : valid_blob b = false := by simp [valid_blob, h4]
          have hf : np_frombuffer_f32 b = none := by simp [np_frombuffer_f32, h4]
          simp [load_criminal_rows, hb, hf, List.filter_cons, hv, ih]

/-- C9: during the relational (criminal-code) corpus load, a record whose
embedding blob is malformed — empty, or with a byte length not divisible
by the 4-byte float32 size, which makes `np.frombuffer` raise — is
skipped, and loading continues with the remaining records in order: the
loaded corpus is exactly the valid rows, decoded; and when zero valid
records remain, the whole load reports failure (`None` corpus, return
`False`). -/
theorem C9_malformed_blob_skipped (rows : List (String × String × List ℕ)) :
    load_criminal_code_embeddings rows =
      if (rows.filter (fun r => valid_blob r.2.2)).isEmpty then none
      else some
        { documents := (rows.filter (fun r => valid_blob r.2.2)).map (fun r => r.2.1),
          embeddings :=
            some ((rows.filter (fun r => valid_blob r.2.2)).map (fun r => decode_f32_list r.2.2)),
          metadatas := (rows.filter (fun r => valid_blob r.2.2)).map (fun r => r.1) } := by
  unfold load_criminal_code_embeddings
  rw [load_criminal_rows_eq]
  cases hfe : rows.filter (fun r => valid_blob r.2.2) with
  | nil => simp
  | cons x xs => simp

theorem simKey_le_iff_real {s t : SimVal} (hs : 0 < s.den) (ht : 0 < t.den) :
    simKey s ≤ simKey t ↔
      (s.num : ℝ) / Real.sqrt (s.den : ℝ) ≤ (t.num : ℝ) / Real.sqrt (t.den : ℝ) := by
  rw [← not_lt, ← not_lt]
  exact not_congr (simKey_lt_iff_real ht hs)

theorem fallback_civil_context_pairwise_key :
    fallback_civil_context.Pairwise
      (fun a b : CivilEntry => simKey b.similarity ≤ simKey a.similarity) := by
  unfold fallback_civil_context
  refine List.Pairwise.cons ?_ (List.Pairwise.cons ?_ (List.Pairwise.cons ?_ (by simp)))
  · intro b hb
    simp only [List.mem_cons, List.not_mem_nil, or_false] at hb
    rcases hb with rfl | rfl | rfl <;> norm_num [simKey]
  · intro b hb
    simp only [List.mem_cons, List.not_mem_nil, or_false] at hb
    rcases hb with rfl | rfl <;> norm_num [simKey]
  · intro b hb
    simp only [List.mem_cons, List.not_mem_nil, or_false] at hb
    rcases hb with rfl
    norm_num [simKey]

theorem search_civil_code_loaded_pairwise_key (documents metadatas : List String)
    (embs : List Vec) (qe : Vec) (n : ℕ) :
    (search_civil_code_loaded documents metadatas embs qe n).Pairwise
      (fun a b : CivilEntry => simKey b.similarity ≤ simKey a.similarity) := by
  unfold search_civil_code_loaded
  dsimp only
  split
  · exact fallback_civil_context_pairwise_key
  · have hp : (rankedSimilarities qe embs).Pairwise
        (fun x y : SimVal × ℕ => simKey y.1 ≤ simKey x.1) :=
      (rankedSimilarities_sorted qe embs).imp rankRel_key_le
    have hsub : List.Sublist
        (List.filter (fun p => simGtThreshold p.1) (List.take n (rankedSimilarities qe embs)))
        (rankedSimilarities qe embs) :=
      (List.filter_sublist _).trans (List.take_sublist _ _)
    have hp2 := hp.sublist hsub
    rw [List.pairwise_map]
    exact hp2

theorem search_civil_code_loaded_den_pos (documents metadatas : List String)
    (embs : List Vec) (qe : Vec) (n : ℕ) (hq : 0 < normSq qe)
    (hv : ∀ v ∈ embs, 0 < normSq v) :
    ∀ e ∈ search_civil_code_loaded documents metadatas embs qe n, 0 < e.similarity.den := by
  unfold search_civil_code_loaded
  dsimp only
  split
  · intro e he
    unfold fallback_civil_context at he
    simp only [List.mem_cons, List.not_mem_nil, or_false] at he
    rcases he with rfl | rfl | rfl | rfl <;> norm_num
  · intro e he
    rcases List.mem_map.1 he with ⟨x, hx, rfl⟩
    have hx2 : x ∈ rankedSimilarities qe embs :=
      ((List.filter_sublist _).trans (List.take_sublist _ _)).subset hx
    have hx3 : x ∈ simPairs qe embs := (rankedSimilarities_perm qe embs).subset hx2
    rcases mem_simPairs.1 hx3 with ⟨v, hg, hx1⟩
    have hvm : v ∈ embs := List.get?_mem hg
    show 0 < x.1.den
    rw [hx1]
    exact cosineSim_den_pos hq (hv v hvm)

theorem pairwise_filterMap_transport {α β : Type} {R : α → α → Prop} {S : β → β → Prop}
    (f : α → Option β) (h : ∀ a b x y, R a b → f a = some x → f b = some y → S x y) :
    ∀ {l : List α}, l.Pairwise R → (l.filterMap f).Pairwise S := by
  intro l hl
  induction hl with
  | nil => simp
  | @cons a t ha _ ih =>
      rw [List.filterMap_cons]
      cases hf : f a with
      | none => exact ih
      | some x =>
          refine List.Pairwise.cons ?_ ih
          intro y hy
          rcases List.mem_filterMap.1 hy with ⟨b, hb, hfb⟩
          exact h a b x y (ha b hb) hf hfb

theorem backend_search_criminal_pairwise_key (para : ℕ → Option (String × String))
    (qe : Vec) (rows : List (ℕ × List ℕ)) (n : ℕ) :
    (backend_search_criminal_code para qe rows n).Pairwise
      (fun a b : CriminalEntry => simKey b.similarity ≤ simKey a.similarity) := by
  unfold backend_search_criminal_code
  split
  · simp
  · have hp : (List.insertionSort backendRankRel (backend_similarities qe rows)).Pairwise
        (fun x y : (ℕ × SimVal) × ℕ => simKey y.1.2 ≤ simKey x.1.2) :=
      (List.sorted_insertionSort backendRankRel _).imp backendRankRel_key_le
    have hp2 := hp.sublist (List.take_sublist n _)
    refine pairwise_filterMap_transport _ ?_ hp2
    intro a b x y hab hfa hfb
    rcases Option.map_eq_some'.1 hfa with ⟨ca, hca, hxa⟩
    rcases Option.map_eq_some'.1 hfb with ⟨cb, hcb, hyb⟩
    rw [← hxa, ← hyb]
    exact hab

theorem mem_backend_similarities {qe : Vec} {rows : List (ℕ × List ℕ)}
    {p : (ℕ × SimVal) × ℕ} (hp : p ∈ backend_similarities qe rows) :
    ∃ row ∈ rows, ∃ v, np_frombuffer_f32 row.2 = some v ∧ v.length = qe.length ∧
      p.1 = (row.1, cosineSim qe v) := by
  unfold backend_similarities at hp
  rcases List.mem_map.1 hp with ⟨q, hq, hpq⟩
  have hq2 := List.mem_enum_iff_get?.1 hq
  have hqmem : q.2 ∈ rows.filterMap (fun row =>
      match np_frombuffer_f32 row.2 with
      | none => none
      | some v => if v.length = qe.length then some (row.1, cosineSim qe v) else none) :=
    List.get?_mem hq2
  rcases List.mem_filterMap.1 hqmem with ⟨row, hrow, hdec⟩
  cases hfb : np_frombuffer_f32 row.2 with
  | none => rw [hfb] at hdec; cases hdec
  | some v =>
      rw [hfb] at hdec
      dsimp only at hdec
      by_cases hl : v.length = qe.length
      · rw [if_pos hl] at hdec
        refine ⟨row, hrow, v, hfb, hl, ?_⟩
        rw [← hpq]
        show q.2 = (row.1, cosineSim qe v)
        exact (Option.some_injective _ hdec).symm
      · rw [if_neg hl] at hdec
        cases hdec

theorem backend_search_criminal_den_pos (para : ℕ → Option (String × String))
    (qe : Vec) (rows : List (ℕ × List ℕ)) (n : ℕ) (hq : 0 < normSq qe)
    (hv : ∀ r ∈ rows, ∀ v, np_frombuffer_f32 r.2 = some v → 0 < normSq v) :
    ∀ e ∈ backend_search_criminal_code para qe rows n, 0 < e.similarity.den := by
  unfold backend_search_criminal_code
  split
  · simp
  · intro e he
    rcases List.mem_filterMap.1 he with ⟨p, hp, hpe⟩
    rcases Option.map_eq_some'.1 hpe with ⟨c, _, hce⟩
    have hp2 : p ∈ backend_similarities qe rows :=
      (List.perm_insertionSort backendRankRel _).subset ((List.take_sublist n _).subset hp)
    rcases mem_backend_similarities hp2 with ⟨row, hrow, v, hfb, _, hp1⟩
    rw [← hce]
    show 0 < p.1.2.den
    rw [hp1]
    exact cosineSim_den_pos hq (hv row hrow v hfb)

/-- C3 (amended): provided the query vector and every stored embedding
have positive norm — so that every similarity is finite and the sort
comparisons are consistent — the similarity-search results are sorted by
descending similarity: for any two consecutive returned entries, the
represented real similarity of the earlier one is ≥ that of the later
one.  Shown for the RealVectorDB civil search (threshold + fallback
pipeline, fallback list included) and for the backend criminal search
(stable sort, no threshold).  The claim as stated, without the
positive-norm restriction, is false: a zero-norm stored embedding yields
a NaN similarity, the IEEE comparisons against it are inconsistent, and
CPython's sort can leave the surviving finite entries in ascending order
(see the C3 counterexample above). -/
theorem C3_results_sorted_descending :
    (∀ (documents metadatas : List String) (embs : List Vec) (qe : Vec) (n : ℕ),
      0 < normSq qe → (∀ v ∈ embs, 0 < normSq v) →
      List.Chain' (fun a b : CivilEntry =>
        (b.similarity.num : ℝ) / Real.sqrt (b.similarity.den : ℝ) ≤
          (a.similarity.num : ℝ) / Real.sqrt (a.similarity.den : ℝ))
        (search_civil_code_loaded documents metadatas embs qe n)) ∧
    (∀ (para : ℕ → Option (String × String)) (qe : Vec) (rows : List (ℕ × List ℕ)) (n : ℕ),
      0 < normSq qe →
      (∀ r ∈ rows, ∀ v, np_frombuffer_f32 r.2 = some v → 0 < normSq v) →
      List.Chain' (fun a b : CriminalEntry =>
        (b.similarity.num : ℝ) / Real.sqrt (b.similarity.den : ℝ) ≤
          (a.similarity.num : ℝ) / Real.sqrt (a.similarity.den : ℝ))
        (backend_search_criminal_code para qe rows n)) := by
  constructor
  · intro documents metadatas embs qe n hq hv
    have hkey := search_civil_code_loaded_pairwise_key documents metadatas embs qe n
    have hden := search_civil_code_loaded_den_pos documents metadatas embs qe n hq hv
    refine List.Pairwise.chain' (hkey.imp_of_mem ?_)
    intro a b ha hb hle
    exact (simKey_le_iff_real (hden b hb) (hden a ha)).1 hle
  · intro para qe rows n hq hv
    have hkey := backend_search_criminal_pairwise_key para qe rows n
    have hden := backend_search_criminal_den_pos para qe rows n hq hv
    refine List.Pairwise.chain' (hkey.imp_of_mem ?_)
    intro a b ha hb hle
    exact (simKey_le_iff_real (hden b hb) (hden a ha)).1 hle

/-- C3 witness: the sortedness statement applied at a concrete one-passage
civil corpus and a concrete (empty) backend row set, with the positivity
hypotheses discharged. -/
theorem C3_results_sorted_descending_witness :
    List.Chain' (fun a b : CivilEntry =>
      (b.similarity.num : ℝ) / Real.sqrt (b.similarity.den : ℝ) ≤
        (a.similarity.num : ℝ) / Real.sqrt (a.similarity.den : ℝ))
      (search_civil_code_loaded ["A"] ["a"] [[1]] [1] 3) ∧
    List.Chain' (fun a b : CriminalEntry =>
      (b.similarity.num : ℝ) / Real.sqrt (b.similarity.den : ℝ) ≤
        (a.similarity.num : ℝ) / Real.sqrt (a.similarity.den : ℝ))
      (backend_search_criminal_code (fun _ => none) [1] [] 3) :=
  ⟨C3_results_sorted_descending.1 ["A"] ["a"] [[1]] [1] 3
      (by norm_num [normSq, dot])
      (by
        intro v hv
        simp only [List.mem_singleton] at hv
        rw [hv]
        norm_num [normSq, dot]),
   C3_results_sorted_descending.2 (fun _ => none) [1] [] 3
      (by norm_num [normSq, dot])
      (by
        intro r hr
        cases hr)⟩

/-- C10 (counterexample): the round-trip claim fails as stated.  Corpus of
N = 2 pairwise distinct embeddings `[1]` and `[2]`; querying with the
exact embedding of passage 0 (`[1]`) must, per the claim, rank passage 0
("A") first — but `cos([1],[2]) = 1 = cos([1],[1])` (a positive scalar
multiple ties at similarity 1.0) and the descending-index tie-break puts
passage 1 ("B") first. -/
theorem C10_roundtrip_counterexample :
    (search_civil_code_loaded ["A", "B"] ["a", "b"] [[1], [2]] [1] 3).head?.map
        (fun e => e.text) = some "B" := by
  have hk0 : simKey (cosineSim [1] [1]) = 1 := by
    have hd : dot ([1] : Vec) [1] = 1 := by norm_num [dot]
    have hn : normSq ([1] : Vec) = 1 := by norm_num [normSq, dot]
    simp only [cosineSim, simKey, hd, hn]
    norm_num
  have hk1 : simKey (cosineSim [1] [2]) = 1 := by
    have hd : dot ([1] : Vec) [2] = 2 := by norm_num [dot]
    have hn : normSq ([1] : Vec) = 1 := by norm_num [normSq, dot]
    have hn2 : normSq ([2] : Vec) = 4 := by norm_num [normSq, dot]
    simp only [cosineSim, simKey, hd, hn, hn2]
    norm_num
  have hnot : ¬ rankRel (cosineSim [1] [1], 0) (cosineSim [1] [2], 1) := by
    unfold rankRel
    simp only [hk0, hk1]
    norm_num
  have hsort : rankedSimilarities [1] [[1], [2]] =
      [(cosineSim [1] [2], 1), (cosineSim [1] [1], 0)] := by
    show List.orderedInsert rankRel (cosineSim [1] [1], 0) [(cosineSim [1] [2], 1)] = _
    simp only [List.orderedInsert]
    rw [if_neg hnot]
  have ht0 : simGtThreshold (cosineSim [1] [1]) = true := by
    simp only [simGtThreshold, decide_eq_true_eq, hk0]
    norm_num
  have ht1 : simGtThreshold (cosineSim [1] [2]) = true := by
    simp only [simGtThreshold, decide_eq_true_eq, hk1]
    norm_num
  unfold search_civil_code_loaded
  dsimp only
  rw [hsort]
  simp [List.filter, ht0, ht1]

/-- C10 (amended): the round-trip property holds once ties at similarity
1.0 are excluded: if passage `i` has positive norm, all stored embeddings
share its dimension and have positive norm, and no *other* stored passage
is a positive scalar multiple of passage `i`'s embedding (pairwise
distinctness alone does not prevent such a passage, which ties at
similarity exactly 1), then querying with the exact embedding of passage
`i` returns passage `i` ranked first, for every `n_results ≥ 1`. -/
theorem C10_roundtrip_amended (documents metadatas : List String) (embs : List Vec)
    (i n : ℕ) (qe : Vec) (hget : embs.get? i = some qe)
    (hpos : ∀ v ∈ embs, 0 < normSq v)
    (hlen : ∀ v ∈ embs, v.length = qe.length)
    (hnp : ∀ j v, embs.get? j = some v → j ≠ i → ¬ ∃ c : ℚ, 0 < c ∧ v = smulVec c qe)
    (hn : 1 ≤ n) :
    (search_civil_code_loaded documents metadatas embs qe n).head? =
      some { text := documents.getD i "", metadata := metadatas.getD i "",
             similarity := cosineSim qe qe } := by
  have hqe : qe ∈ embs := List.get?_mem hget
  have hq : 0 < normSq qe := hpos qe hqe
  have hxmem : (cosineSim qe qe, i) ∈ simPairs qe embs := simPairs_mem_of_get hget
  have hmax : ∀ y ∈ simPairs qe embs, y.2 ≠ (cosineSim qe qe, i).2 →
      simKey y.1 < simKey (cosineSim qe qe, i).1 := by
    intro y hy hne
    rcases mem_simPairs.1 hy with ⟨v, hg, hy1⟩
    have hvm : v ∈ embs := List.get?_mem hg
    rw [hy1]
    show simKey (cosineSim qe v) < simKey (cosineSim qe qe)
    rw [simKey_cosineSim_self hq]
    exact simKey_cosineSim_lt_one hq (hpos v hvm) (hlen v hvm).symm (hnp y.2 v hg hne)
  have hnd : ((simPairs qe embs).map Prod.snd).Nodup := by
    rw [simPairs_map_snd]
    exact List.nodup_range _
  have hhead : (List.insertionSort rankRel (simPairs qe embs)).head? =
      some (cosineSim qe qe, i) :=
    insertionSort_head_of_strict_max hxmem hnd hmax
  obtain ⟨t, ht⟩ : ∃ t, rankedSimilarities qe embs = (cosineSim qe qe, i) :: t := by
    unfold rankedSimilarities
    cases hc : List.insertionSort rankRel (simPairs qe embs) with
    | nil => rw [hc] at hhead; cases hhead
    | cons a t =>
        rw [hc] at hhead
        have ha : a = (cosineSim qe qe, i) := Option.some.inj hhead
        exact ⟨t, by rw [ha]⟩
  obtain ⟨m, rfl⟩ : ∃ m, n = m + 1 := ⟨n - 1, by omega⟩
  have hthr : simGtThreshold (cosineSim qe qe) = true := by
    simp only [simGtThreshold, decide_eq_true_eq, simKey_cosineSim_self hq]
    norm_num
  unfold search_civil_code_loaded
  dsimp only
  rw [ht, List.take_succ_cons]
  have hfc : List.filter (fun p : SimVal × ℕ => simGtThreshold p.1)
      ((cosineSim qe qe, i) :: List.take m t) =
      (cosineSim qe qe, i) ::
        List.filter (fun p : SimVal × ℕ => simGtThreshold p.1) (List.take m t) := by
    rw [List.filter_cons]
    simp [hthr]
  rw [hfc, List.map_cons]
  rw [if_neg (by simp)]
  rfl

/-- C10 witness: the amended round-trip statement at the concrete corpus
`[[1,0],[0,1]]`, querying with passage 0's embedding `[1,0]`. -/
theorem C10_roundtrip_amended_witness :
    (search_civil_code_loaded ["A", "B"] ["a", "b"] [[1, 0], [0, 1]] [1, 0] 2).head? =
      some { text := "A", metadata := "a", similarity := cosineSim [1, 0] [1, 0] } :=
  C10_roundtrip_amended ["A", "B"] ["a", "b"] [[1, 0], [0, 1]] 0 2 [1, 0] rfl
    (by
      intro v hv
      simp only [List.mem_cons, List.not_mem_nil, or_false] at hv
      rcases hv with rfl | rfl <;> norm_num [normSq, dot])
    (by
      intro v hv
      simp only [List.mem_cons, List.not_mem_nil, or_false] at hv
      rcases hv with rfl | rfl <;> rfl)
    (by
      intro j v hg hj
      rcases j with _ | _ | j
      · exact absurd rfl hj
      · have hv : v = [0, 1] := (Option.some.inj hg).symm
        rintro ⟨c, hc, hvc⟩
        rw [hv] at hvc
        simp only [smulVec, List.map_cons, List.map_nil] at hvc
        injection hvc with h1 hrest
        injection hrest with h2 _
        rw [mul_zero] at h2
        exact one_ne_zero h2
      · simp [List.get?] at hg)
    (by omega)

theorem pyInsertAt_perm {α : Type} (i : ℕ) (x : α) (l : List α) :
    List.Perm (pyInsertAt i x l) (x :: l) := by
  unfold pyInsertAt
  refine List.perm_middle.trans ?_
  rw [List.take_append_drop]

theorem pyBinarySort_perm {α : Type} (lt : α → α → Bool) :
    ∀ (rest ps : List α), List.Perm (pyBinarySort lt ps rest) (ps ++ rest) := by
  intro rest
  induction rest with
  | nil =>
      intro ps
      simp [pyBinarySort]
  | cons x rest ih =>
      intro ps
      show List.Perm
        (pyBinarySort lt (pyInsertAt (pyBinSearch lt x ps 0 ps.length) x ps) rest) _
      refine (ih _).trans ?_
      refine (List.Perm.append_right rest (pyInsertAt_perm _ x ps)).trans ?_
      exact List.perm_middle.symm

theorem pyAscRun_append {α : Type} (lt : α → α → Bool) :
    ∀ (l : List α) (a : α), (pyAscRun lt a l).1 ++ (pyAscRun lt a l).2 = a :: l := by
  intro l
  induction l with
  | nil =>
      intro a
      rfl
  | cons x rest ih =>
      intro a
      cases hxa : lt x a
      · simp [pyAscRun, hxa, ih x]
      · simp [pyAscRun, hxa]

theorem pyDescRun_append {α : Type} (lt : α → α → Bool) :
    ∀ (l : List α) (a : α), (pyDescRun lt a l).1 ++ (pyDescRun lt a l).2 = a :: l := by
  intro l
  induction l with
  | nil =>
      intro a
      rfl
  | cons x rest ih =>
      intro a
      cases hxa : lt x a
      · simp [pyDescRun, hxa]
      · simp [pyDescRun, hxa, ih x]

theorem pyListSortAsc_perm {α : Type} (lt : α → α → Bool) (l : List α) :
    List.Perm (pyListSortAsc lt l) l := by
  match l with
  | [] => exact List.Perm.refl _
  | [a] => exact List.Perm.refl _
  | a :: b :: rest2 =>
      cases hba : lt b a
      · show List.Perm (pyListSortAsc lt (a :: b :: rest2)) _
        simp only [pyListSortAsc, hba]
        refine (pyBinarySort_perm lt _ _).trans ?_
        rw [← pyAscRun_append lt (b :: rest2) a]
      · show List.Perm (pyListSortAsc lt (a :: b :: rest2)) _
        simp only [pyListSortAsc, hba]
        refine (pyBinarySort_perm lt _ _).trans ?_
        refine (List.Perm.append_right _ (List.reverse_perm _)).trans ?_
        rw [← pyDescRun_append lt (b :: rest2) a]

theorem pyListSortReverse_perm {α : Type} (lt : α → α → Bool) (l : List α) :
    List.Perm (pyListSortReverse lt l) l := by
  unfold pyListSortReverse
  exact (List.reverse_perm _).trans ((pyListSortAsc_perm lt l.reverse).trans (List.reverse_perm l))

/-- C3 (counterexample): the sortedness claim fails as stated once a
stored embedding has zero norm.  Loaded civil corpus
`[[1,1], [0,0], [1,0]]`, query `[1,0]` (itself of positive norm): the
similarities are `1/√2`, NaN (`0.0/0.0` for the zero-norm passage) and
`1`.  The IEEE comparisons against the middle NaN are all false, so
CPython's `sort(reverse=True)` treats the whole (reversed) list as one
ascending run and returns it unchanged; the `> 0.3` filter then drops
only the NaN entry, and the returned sequence has real similarities
`[1/√2, 1]` — two consecutive entries in strictly *ascending* order. -/
theorem C3_nan_unsorted_counterexample :
    (py_search_civil_code_loaded ["A", "B", "C"] ["a", "b", "c"]
        [[1, 1], [0, 0], [1, 0]] [1, 0] 3).map (fun e => e.text) = ["A", "C"] ∧
    ¬ List.Chain' (fun a b : CivilEntry =>
        (b.similarity.num : ℝ) / Real.sqrt (b.similarity.den : ℝ) ≤
          (a.similarity.num : ℝ) / Real.sqrt (a.similarity.den : ℝ))
      (py_search_civil_code_loaded ["A", "B", "C"] ["a", "b", "c"]
          [[1, 1], [0, 0], [1, 0]] [1, 0] 3) := by
  have hden1 : (cosineSim ([1, 0] : Vec) [0, 0]).den = 0 := by
    norm_num [cosineSim, normSq, dot]
  have hd0 : 0 < (cosineSim ([1, 0] : Vec) [1, 1]).den := by
    norm_num [cosineSim, normSq, dot]
  have hd2 : 0 < (cosineSim ([1, 0] : Vec) [1, 0]).den := by
    norm_num [cosineSim, normSq, dot]
  have hk0 : simKey (cosineSim ([1, 0] : Vec) [1, 1]) = 1 / 2 := by
    have hd : dot ([1, 0] : Vec) [1, 1] = 1 := by norm_num [dot]
    simp only [cosineSim, simKey, hd]
    norm_num [normSq, dot]
  have hk2 : simKey (cosineSim ([1, 0] : Vec) [1, 0]) = 1 := by
    have hd : dot ([1, 0] : Vec) [1, 0] = 1 := by norm_num [dot]
    simp only [cosineSim, simKey, hd]
    norm_num [normSq, dot]
  have heA : pySimEq (cosineSim ([1, 0] : Vec) [0, 0]) (cosineSim ([1, 0] : Vec) [1, 0])
      = false := by
    simp only [pySimEq, decide_eq_false_iff_not]
    intro h
    rw [hden1] at h
    exact lt_irrefl 0 h.1
  have hlA : pySimLt (cosineSim ([1, 0] : Vec) [0, 0]) (cosineSim ([1, 0] : Vec) [1, 0])
      = false := by
    simp only [pySimLt, decide_eq_false_iff_not]
    intro h
    rw [hden1] at h
    exact lt_irrefl 0 h.1
  have heB : pySimEq (cosineSim ([1, 0] : Vec) [1, 1]) (cosineSim ([1, 0] : Vec) [0, 0])
      = false := by
    simp only [pySimEq, decide_eq_false_iff_not]
    intro h
    rw [hden1] at h
    exact lt_irrefl 0 h.2.1
  have hlB : pySimLt (cosineSim ([1, 0] : Vec) [1, 1]) (cosineSim ([1, 0] : Vec) [0, 0])
      = false := by
    simp only [pySimLt, decide_eq_false_iff_not]
    intro h
    rw [hden1] at h
    exact lt_irrefl 0 h.2.1
  have hltA : pyPairLt (cosineSim ([1, 0] : Vec) [0, 0], 1) (cosineSim ([1, 0] : Vec) [1, 0], 2)
      = false := by
    simp [pyPairLt, heA, hlA]
  have hltB : pyPairLt (cosineSim ([1, 0] : Vec) [1, 1], 0) (cosineSim ([1, 0] : Vec) [0, 0], 1)
      = false := by
    simp [pyPairLt, heB, hlB]
  have hasc : pyListSortAsc pyPairLt
      [(cosineSim ([1, 0] : Vec) [1, 0], 2), (cosineSim ([1, 0] : Vec) [0, 0], 1),
        (cosineSim ([1, 0] : Vec) [1, 1], 0)] =
      [(cosineSim ([1, 0] : Vec) [1, 0], 2), (cosineSim ([1, 0] : Vec) [0, 0], 1),
        (cosineSim ([1, 0] : Vec) [1, 1], 0)] := by
    simp only [pyListSortAsc, hltA]
    simp only [pyAscRun, hltA, hltB]
    simp [pyBinarySort]
  have hsorted : pyListSortReverse pyPairLt
      (simPairs ([1, 0] : Vec) [[1, 1], [0, 0], [1, 0]]) =
      [(cosineSim ([1, 0] : Vec) [1, 1], 0), (cosineSim ([1, 0] : Vec) [0, 0], 1),
        (cosineSim ([1, 0] : Vec) [1, 0], 2)] := by
    show (pyListSortAsc pyPairLt
        (simPairs ([1, 0] : Vec) [[1, 1], [0, 0], [1, 0]]).reverse).reverse = _
    have hrev : (simPairs ([1, 0] : Vec) [[1, 1], [0, 0], [1, 0]]).reverse =
        [(cosineSim ([1, 0] : Vec) [1, 0], 2), (cosineSim ([1, 0] : Vec) [0, 0], 1),
          (cosineSim ([1, 0] : Vec) [1, 1], 0)] := rfl
    rw [hrev, hasc]
    rfl
  have ht0 : simGtThreshold (cosineSim ([1, 0] : Vec) [1, 1]) = true := by
    simp only [simGtThreshold, decide_eq_true_eq, hk0]
    norm_num
  have ht1 : simGtThreshold (cosineSim ([1, 0] : Vec) [0, 0]) = false :=
    simGtThreshold_nan hden1
  have ht2 : simGtThreshold (cosineSim ([1, 0] : Vec) [1, 0]) = true := by
    simp only [simGtThreshold, decide_eq_true_eq, hk2]
    norm_num
  have hres : py_search_civil_code_loaded ["A", "B", "C"] ["a", "b", "c"]
      [[1, 1], [0, 0], [1, 0]] [1, 0] 3 =
      [{ text := "A", metadata := "a", similarity := cosineSim ([1, 0] : Vec) [1, 1] },
       { text := "C", metadata := "c", similarity := cosineSim ([1, 0] : Vec) [1, 0] }] := by
    unfold py_search_civil_code_loaded
    dsimp only
    rw [hsorted]
    simp [List.filter, ht0, ht1, ht2]
  constructor
  · rw [hres]
    rfl
  · rw [hres]
    intro hch
    have hpair := (List.chain'_cons.1 hch).1
    have hkey := (simKey_le_iff_real hd2 hd0).2 hpair
    rw [hk2, hk0] at hkey
    norm_num at hkey

theorem pyPairLt_eq_false_iff {x y : SimVal × ℕ} (hx : 0 < x.1.den) (hy : 0 < y.1.den) :
    pyPairLt x y = false ↔ rankRel x y := by
  unfold pyPairLt pySimEq pySimLt rankRel
  rcases lt_trichotomy (simKey x.1) (simKey y.1) with h | h | h
  · rw [if_neg (by simp [hx, hy, ne_of_lt h])]
    simp only [decide_eq_false_iff_not, not_and, not_lt]
    constructor
    · intro hf
      exact absurd h (not_lt.2 (hf hx hy))
    · intro hr
      rcases hr with h2 | ⟨h2, _⟩
      · exact absurd h (not_lt.2 (le_of_lt h2))
      · exact absurd h (not_lt.2 (le_of_eq h2.symm))
  · rw [if_pos (by simp [hx, hy, h])]
    simp only [decide_eq_false_iff_not, not_lt]
    constructor
    · intro hle
      exact Or.inr ⟨h, hle⟩
    · intro hr
      rcases hr with h2 | ⟨_, h2⟩
      · exact absurd h2 (by rw [h]; exact lt_irrefl _)
      · exact h2
  · rw [if_neg (by simp [hx, hy, ne_of_gt h])]
    simp only [decide_eq_false_iff_not, not_and, not_lt]
    constructor
    · intro _
      exact Or.inl h
    · intro _ _ _
      exact le_of_lt h

theorem pyPairLt_eq_true_iff {x y : SimVal × ℕ} (hx : 0 < x.1.den) (hy : 0 < y.1.den) :
    pyPairLt x y = true ↔ ¬ rankRel x y := by
  rw [← pyPairLt_eq_false_iff hx hy]
  cases pyPairLt x y <;> simp

theorem rankRel_antisymm_idx {x y : SimVal × ℕ} (h1 : rankRel x y) (h2 : rankRel y x) :
    x.2 = y.2 := by
  rcases h1 with h1 | ⟨h1, h1i⟩ <;> rcases h2 with h2 | ⟨h2, h2i⟩
  · exact absurd h1 (lt_asymm h2)
  · exact absurd h1 (by rw [h2]; exact lt_irrefl _)
  · exact absurd h2 (by rw [h1]; exact lt_irrefl _)
  · exact le_antisymm h2i h1i

/-- A permutation that is sorted for `rankRel` is unique once the indices
are distinct: the content of the comment that `sort(reverse=True)` has a
single possible outcome on finite similarities. -/
theorem rankRel_sorted_unique :
    ∀ {l₁ l₂ : List (SimVal × ℕ)}, List.Perm l₁ l₂ →
      List.Sorted rankRel l₁ → List.Sorted rankRel l₂ →
      (l₁.map Prod.snd).Nodup → l₁ = l₂ := by
  intro l₁
  induction l₁ with
  | nil =>
      intro l₂ hp _ _ _
      exact List.Perm.nil_eq hp
  | cons x t₁ ih =>
      intro l₂ hp hs₁ hs₂ hnd
      cases l₂ with
      | nil => exact absurd hp.symm (by simp)
      | cons y t₂ =>
          have hxy : x = y := by
            by_contra hne
            have hx2 : x ∈ y :: t₂ := hp.subset (by simp)
            have hy1 : y ∈ x :: t₁ := hp.symm.subset (by simp)
            have hrxy : rankRel x y := by
              rcases List.mem_cons.1 hy1 with h | h
              · exact absurd h.symm hne
              · exact (List.pairwise_cons.1 hs₁).1 y h
            have hryx : rankRel y x := by
              rcases List.mem_cons.1 hx2 with h | h
              · exact absurd h hne
              · exact (List.pairwise_cons.1 hs₂).1 x h
            have hidx : x.2 = y.2 := rankRel_antisymm_idx hrxy hryx
            have hy1' : y ∈ x :: t₁ := hy1
            exact hne (List.inj_on_of_nodup_map hnd (by simp) hy1' hidx)
          subst hxy
          have hpt : List.Perm t₁ t₂ := hp.cons_inv
          have := ih hpt (List.pairwise_cons.1 hs₁).2 (List.pairwise_cons.1 hs₂).2
            ((List.map_cons Prod.snd x t₁) ▸ hnd).of_cons
          rw [this]

theorem pyBinSearch_spec {α : Type} (lt : α → α → Bool) (pivot : α) (ps : List α)
    (mono : ∀ i j : ℕ, i ≤ j → j < ps.length →
      lt pivot (ps.getD i pivot) = true → lt pivot (ps.getD j pivot) = true) :
    ∀ (n L R : ℕ), R - L ≤ n → L ≤ R → R ≤ ps.length →
      (∀ k, k < L → lt pivot (ps.getD k pivot) = false) →
      (∀ k, R ≤ k → k < ps.length → lt pivot (ps.getD k pivot) = true) →
      L ≤ pyBinSearch lt pivot ps L R ∧ pyBinSearch lt pivot ps L R ≤ R ∧
      (∀ k, k < pyBinSearch lt pivot ps L R → lt pivot (ps.getD k pivot) = false) ∧
      (∀ k, pyBinSearch lt pivot ps L R ≤ k → k < ps.length →
        lt pivot (ps.getD k pivot) = true) := by
  intro n
  induction n with
  | zero =>
      intro L R hn hLR hRlen hL hRk
      have hnot : ¬ L < R := by omega
      rw [pyBinSearch, dif_neg hnot]
      exact ⟨le_refl _, hLR, hL, fun k hk hklen => hRk k (by omega) hklen⟩
  | succ n ih =>
      intro L R hn hLR hRlen hL hRk
      by_cases hlt : L < R
      · rw [pyBinSearch, dif_pos hlt]
        have hMlt : L + (R - L) / 2 < R := by omega
        have hMlen : L + (R - L) / 2 < ps.length := by omega
        cases hcmp : lt pivot (ps.getD (L + (R - L) / 2) pivot)
        · rw [if_neg (by simp [hcmp])]
          have hL' : ∀ k, k < L + (R - L) / 2 + 1 → lt pivot (ps.getD k pivot) = false := by
            intro k hk
            by_cases hkL : k < L
            · exact hL k hkL
            · cases h2 : lt pivot (ps.getD k pivot)
              · rfl
              · have := mono k (L + (R - L) / 2) (by omega) hMlen h2
                rw [this] at hcmp
                cases hcmp
          have hrec := ih (L + (R - L) / 2 + 1) R (by omega) (by omega) hRlen hL' hRk
          exact ⟨by omega, hrec.2.1, hrec.2.2.1, hrec.2.2.2⟩
        · rw [if_pos (by simp [hcmp])]
          have hR' : ∀ k, L + (R - L) / 2 ≤ k → k < ps.length →
              lt pivot (ps.getD k pivot) = true := by
            intro k hk hklen
            exact mono (L + (R - L) / 2) k hk hklen hcmp
          have hrec := ih L (L + (R - L) / 2) (by omega) (by omega) (by omega) hL hR'
          exact ⟨hrec.1, by omega, hrec.2.2.1, hrec.2.2.2⟩
      · rw [pyBinSearch, dif_neg hlt]
        exact ⟨le_refl _, hLR, hL, fun k hk hklen => hRk k (by omega) hklen⟩

theorem pyInsertAt_sorted_rank (ps : List (SimVal × ℕ)) (pivot : SimVal × ℕ)
    (hps : List.Pairwise (fun a b => rankRel b a) ps)
    (hpP : 0 < pivot.1.den) (hpsP : ∀ x ∈ ps, 0 < x.1.den) :
    List.Pairwise (fun a b => rankRel b a)
      (pyInsertAt (pyBinSearch pyPairLt pivot ps 0 ps.length) pivot ps) := by
  have hmemP : ∀ k, k < ps.length → 0 < (ps.getD k pivot).1.den := by
    intro k hk
    rw [List.getD_eq_getElem _ pivot hk]
    exact hpsP _ (List.getElem_mem hk)
  have mono : ∀ i j : ℕ, i ≤ j → j < ps.length →
      pyPairLt pivot (ps.getD i pivot) = true → pyPairLt pivot (ps.getD j pivot) = true := by
    intro i j hij hj hi
    have hilen : i < ps.length := by omega
    have hnoti : ¬ rankRel pivot (ps.getD i pivot) :=
      (pyPairLt_eq_true_iff hpP (hmemP i hilen)).1 hi
    rw [pyPairLt_eq_true_iff hpP (hmemP j hj)]
    intro hpj
    apply hnoti
    rcases Nat.lt_or_ge i j with hij2 | hij2
    · have hsorted : rankRel (ps.getD j pivot) (ps.getD i pivot) := by
        rw [List.getD_eq_getElem _ pivot hilen, List.getD_eq_getElem _ pivot hj]
        exact List.pairwise_iff_getElem.1 hps i j hilen hj hij2
      exact IsTrans.trans _ _ _ hpj hsorted
    · have : i = j := by omega
      rw [this]
      exact hpj
  obtain ⟨hF0, hFlen, hbelow, habove⟩ :=
    pyBinSearch_spec pyPairLt pivot ps mono ps.length 0 ps.length (by omega) (by omega)
      (le_refl _) (fun k hk => absurd hk (by omega)) (fun k hk hklen => absurd hklen (by omega))
  have hbelow' : ∀ k, k < ps.length → k < pyBinSearch pyPairLt pivot ps 0 ps.length →
      rankRel pivot (ps.getD k pivot) := by
    intro k hklen hkF
    exact (pyPairLt_eq_false_iff hpP (hmemP k hklen)).1 (hbelow k hkF)
  have habove' : ∀ k, k < ps.length → pyBinSearch pyPairLt pivot ps 0 ps.length ≤ k →
      rankRel (ps.getD k pivot) pivot := by
    intro k hklen hkF
    have hnot : ¬ rankRel pivot (ps.getD k pivot) :=
      (pyPairLt_eq_true_iff hpP (hmemP k hklen)).1 (habove k hkF hklen)
    rcases IsTotal.total (r := rankRel) pivot (ps.getD k pivot) with h | h
    · exact absurd h hnot
    · exact h
  unfold pyInsertAt
  rw [List.pairwise_append]
  refine ⟨hps.sublist (List.take_sublist _ _), ?_, ?_⟩
  · rw [List.pairwise_cons]
    refine ⟨?_, hps.sublist (List.drop_sublist _ _)⟩
    intro b hb
    rcases List.mem_iff_getElem.1 hb with ⟨j, hj, rfl⟩
    have hjlen : pyBinSearch pyPairLt pivot ps 0 ps.length + j < ps.length := by
      rw [List.length_drop] at hj
      omega
    rw [List.getElem_drop, ← List.getD_eq_getElem _ pivot hjlen]
    exact habove' _ hjlen (by omega)
  · intro a ha b hb
    rcases List.mem_iff_getElem.1 ha with ⟨k, hk, rfl⟩
    have hkF : k < pyBinSearch pyPairLt pivot ps 0 ps.length := by
      rw [List.length_take] at hk
      omega
    have hklen : k < ps.length := by
      rw [List.length_take] at hk
      omega
    have hpa : rankRel pivot ((ps.take (pyBinSearch pyPairLt pivot ps 0 ps.length))[k]) := by
      rw [List.getElem_take, ← List.getD_eq_getElem _ pivot hklen]
      exact hbelow' k hklen hkF
    rcases List.mem_cons.1 hb with rfl | hb2
    · exact hpa
    · rcases List.mem_iff_getElem.1 hb2 with ⟨j, hj, rfl⟩
      have hjlen : pyBinSearch pyPairLt pivot ps 0 ps.length + j < ps.length := by
        rw [List.length_drop] at hj
        omega
      have h1 : rankRel ((ps.drop (pyBinSearch pyPairLt pivot ps 0 ps.length))[j]) pivot := by
        rw [List.getElem_drop, ← List.getD_eq_getElem _ pivot hjlen]
        exact habove' _ hjlen (by omega)
      exact IsTrans.trans _ _ _ h1 hpa

theorem pyAscRun_fst_head {α : Type} (lt : α → α → Bool) (l : List α) (a : α) :
    ∃ t, (pyAscRun lt a l).1 = a :: t := by
  cases l with
  | nil => exact ⟨[], rfl⟩
  | cons x rest =>
      cases hxa : lt x a
      · exact ⟨(pyAscRun lt x rest).1, by simp [pyAscRun, hxa]⟩
      · exact ⟨[], by simp [pyAscRun, hxa]⟩

theorem pyDescRun_fst_head {α : Type} (lt : α → α → Bool) (l : List α) (a : α) :
    ∃ t, (pyDescRun lt a l).1 = a :: t := by
  cases l with
  | nil => exact ⟨[], rfl⟩
  | cons x rest =>
      cases hxa : lt x a
      · exact ⟨[], by simp [pyDescRun, hxa]⟩
      · exact ⟨(pyDescRun lt x rest).1, by simp [pyDescRun, hxa]⟩

theorem pyAscRun_chain {α : Type} (lt : α → α → Bool) :
    ∀ (l : List α) (a : α),
      List.Chain' (fun x y => lt y x = false) (pyAscRun lt a l).1 := by
  intro l
  induction l with
  | nil =>
      intro a
      simp [pyAscRun]
  | cons x rest ih =>
      intro a
      cases hxa : lt x a
      · obtain ⟨t, ht⟩ := pyAscRun_fst_head lt rest x
        have hgoal : (pyAscRun lt a (x :: rest)).1 = a :: (pyAscRun lt x rest).1 := by
          simp [pyAscRun, hxa]
        rw [hgoal, ht]
        refine List.chain'_cons.2 ⟨hxa, ?_⟩
        rw [← ht]
        exact ih x
      · have hgoal : (pyAscRun lt a (x :: rest)).1 = [a] := by
          simp [pyAscRun, hxa]
        rw [hgoal]
        simp

theorem pyDescRun_chain {α : Type} (lt : α → α → Bool) :
    ∀ (l : List α) (a : α),
      List.Chain' (fun x y => lt y x = true) (pyDescRun lt a l).1 := by
  intro l
  induction l with
  | nil =>
      intro a
      simp [pyDescRun]
  | cons x rest ih =>
      intro a
      cases hxa : lt x a
      · have hgoal : (pyDescRun lt a (x :: rest)).1 = [a] := by
          simp [pyDescRun, hxa]
        rw [hgoal]
        simp
      · obtain ⟨t, ht⟩ := pyDescRun_fst_head lt rest x
        have hgoal : (pyDescRun lt a (x :: rest)).1 = a :: (pyDescRun lt x rest).1 := by
          simp [pyDescRun, hxa]
        rw [hgoal, ht]
        refine List.chain'_cons.2 ⟨hxa, ?_⟩
        rw [← ht]
        exact ih x

theorem chain_false_flip_rank :
    ∀ {l : List (SimVal × ℕ)}, (∀ x ∈ l, 0 < x.1.den) →
      List.Chain' (fun a b => pyPairLt b a = false) l →
      List.Pairwise (fun a b => rankRel b a) l := by
  intro l
  induction l with
  | nil =>
      intro _ _
      exact List.Pairwise.nil
  | cons a t ih =>
      intro hpos hc
      cases t with
      | nil => exact List.pairwise_singleton _ _
      | cons b t2 =>
          have hc' := List.chain'_cons.1 hc
          have hpt := ih (fun x hx => hpos x (List.mem_cons_of_mem a hx)) hc'.2
          refine List.Pairwise.cons ?_ hpt
          intro c hc2
          have hba : rankRel b a :=
            (pyPairLt_eq_false_iff (hpos b (by simp)) (hpos a (by simp))).1 hc'.1
          rcases List.mem_cons.1 hc2 with rfl | hc3
          · exact hba
          · exact IsTrans.trans c b a ((List.pairwise_cons.1 hpt).1 c hc3) hba

theorem chain_true_rank :
    ∀ {l : List (SimVal × ℕ)}, (∀ x ∈ l, 0 < x.1.den) →
      List.Chain' (fun a b => pyPairLt b a = true) l →
      List.Chain' rankRel l := by
  intro l
  induction l with
  | nil =>
      intro _ _
      exact List.chain'_nil
  | cons a t ih =>
      intro hpos hc
      cases t with
      | nil => simp
      | cons b t2 =>
          have hc' := List.chain'_cons.1 hc
          refine List.chain'_cons.2 ⟨?_, ih (fun x hx => hpos x (List.mem_cons_of_mem a hx)) hc'.2⟩
          have hnba : ¬ rankRel b a :=
            (pyPairLt_eq_true_iff (hpos b (by simp)) (hpos a (by simp))).1 hc'.1
          rcases total_of rankRel a b with h | h
          · exact h
          · exact absurd h hnba

theorem pyBinarySort_sorted_rank :
    ∀ (rest ps : List (SimVal × ℕ)), (∀ x ∈ ps, 0 < x.1.den) →
      (∀ x ∈ rest, 0 < x.1.den) →
      List.Pairwise (fun a b => rankRel b a) ps →
      List.Pairwise (fun a b => rankRel b a) (pyBinarySort pyPairLt ps rest) := by
  intro rest
  induction rest with
  | nil =>
      intro ps hps _ hsorted
      exact hsorted
  | cons x rest ih =>
      intro ps hps hrest hsorted
      show List.Pairwise (fun a b => rankRel b a)
        (pyBinarySort pyPairLt (pyInsertAt (pyBinSearch pyPairLt x ps 0 ps.length) x ps) rest)
      have hxpos : 0 < x.1.den := hrest x (by simp)
      have hins := pyInsertAt_sorted_rank ps x hsorted hxpos hps
      have hinspos : ∀ y ∈ pyInsertAt (pyBinSearch pyPairLt x ps 0 ps.length) x ps,
          0 < y.1.den := by
        intro y hy
        have : y ∈ x :: ps := (pyInsertAt_perm _ x ps).subset hy
        rcases List.mem_cons.1 this with rfl | h2
        · exact hxpos
        · exact hps y h2
      exact ih _ hinspos (fun y hy => hrest y (List.mem_cons_of_mem x hy)) hins

theorem pyListSortAsc_sorted_rank (l : List (SimVal × ℕ)) (hpos : ∀ x ∈ l, 0 < x.1.den) :
    List.Pairwise (fun a b => rankRel b a) (pyListSortAsc pyPairLt l) := by
  match l with
  | [] => exact List.Pairwise.nil
  | [a] => exact List.pairwise_singleton _ _
  | a :: b :: rest2 =>
      cases hba : pyPairLt b a
      · show List.Pairwise (fun a b => rankRel b a) (pyListSortAsc pyPairLt (a :: b :: rest2))
        simp only [pyListSortAsc, hba, Bool.false_eq_true, if_false]
        have happ := pyAscRun_append pyPairLt (b :: rest2) a
        have hrunpos : ∀ x ∈ (pyAscRun pyPairLt a (b :: rest2)).1, 0 < x.1.den := by
          intro x hx
          exact hpos x (by rw [← happ]; exact List.mem_append_left _ hx)
        have hrestpos : ∀ x ∈ (pyAscRun pyPairLt a (b :: rest2)).2, 0 < x.1.den := by
          intro x hx
          exact hpos x (by rw [← happ]; exact List.mem_append_right _ hx)
        have hrun := chain_false_flip_rank hrunpos (pyAscRun_chain pyPairLt (b :: rest2) a)
        exact pyBinarySort_sorted_rank _ _ hrunpos hrestpos hrun
      · show List.Pairwise (fun a b => rankRel b a) (pyListSortAsc pyPairLt (a :: b :: rest2))
        simp only [pyListSortAsc, hba, if_true]
        have happ := pyDescRun_append pyPairLt (b :: rest2) a
        have hrunpos : ∀ x ∈ (pyDescRun pyPairLt a (b :: rest2)).1, 0 < x.1.den := by
          intro x hx
          exact hpos x (by rw [← happ]; exact List.mem_append_left _ hx)
        have hrestpos : ∀ x ∈ (pyDescRun pyPairLt a (b :: rest2)).2, 0 < x.1.den := by
          intro x hx
          exact hpos x (by rw [← happ]; exact List.mem_append_right _ hx)
        have hrevpos : ∀ x ∈ (pyDescRun pyPairLt a (b :: rest2)).1.reverse, 0 < x.1.den := by
          intro x hx
          exact hrunpos x (List.mem_reverse.1 hx)
        have hchain := chain_true_rank hrunpos (pyDescRun_chain pyPairLt (b :: rest2) a)
        have hrunsorted : List.Pairwise rankRel (pyDescRun pyPairLt a (b :: rest2)).1 :=
          List.chain'_iff_pairwise.1 hchain
        have hrevsorted : List.Pairwise (fun a b => rankRel b a)
            (pyDescRun pyPairLt a (b :: rest2)).1.reverse :=
          List.pairwise_reverse.2 hrunsorted
        exact pyBinarySort_sorted_rank _ _ hrevpos hrestpos hrevsorted

theorem pyListSortReverse_sorted_rank (l : List (SimVal × ℕ))
    (hpos : ∀ x ∈ l, 0 < x.1.den) :
    List.Sorted rankRel (pyListSortReverse pyPairLt l) := by
  unfold pyListSortReverse
  have hpos' : ∀ x ∈ l.reverse, 0 < x.1.den := fun x hx => hpos x (List.mem_reverse.1 hx)
  exact List.pairwise_reverse.2 (pyListSortAsc_sorted_rank l.reverse hpos')

theorem simPairs_den_pos (qe : Vec) (embs : List Vec) (hq : 0 < normSq qe)
    (hv : ∀ v ∈ embs, 0 < normSq v) :
    ∀ x ∈ simPairs qe embs, 0 < x.1.den := by
  intro x hx
  rcases mem_simPairs.1 hx with ⟨v, hg, hx1⟩
  rw [hx1]
  exact cosineSim_den_pos hq (hv v (List.get?_mem hg))

/-- In the finite region — query and every stored embedding of positive
norm — the faithful CPython sort model and the unique-descending-order
model coincide: `sort(reverse=True)` run on the similarity pairs produces
exactly the `insertionSort rankRel` ranking.  This discharges the
modelling gap between `pyPairLt` and `rankRel`: they differ only where a
NaN similarity appears. -/
theorem pyListSortReverse_eq_rankedSimilarities (qe : Vec) (embs : List Vec)
    (hq : 0 < normSq qe) (hv : ∀ v ∈ embs, 0 < normSq v) :
    pyListSortReverse pyPairLt (simPairs qe embs) = rankedSimilarities qe embs := by
  have hperm : List.Perm (pyListSortReverse pyPairLt (simPairs qe embs))
      (rankedSimilarities qe embs) :=
    (pyListSortReverse_perm pyPairLt _).trans (rankedSimilarities_perm qe embs).symm
  have hs1 : List.Sorted rankRel (pyListSortReverse pyPairLt (simPairs qe embs)) :=
    pyListSortReverse_sorted_rank _ (simPairs_den_pos qe embs hq hv)
  have hnd : ((pyListSortReverse pyPairLt (simPairs qe embs)).map Prod.snd).Nodup := by
    have hp2 : List.Perm ((pyListSortReverse pyPairLt (simPairs qe embs)).map Prod.snd)
        ((simPairs qe embs).map Prod.snd) :=
      (pyListSortReverse_perm pyPairLt _).map Prod.snd
    rw [hp2.nodup_iff, simPairs_map_snd]
    exact List.nodup_range _
  exact rankRel_sorted_unique hperm hs1 (rankedSimilarities_sorted qe embs) hnd

/-- In the finite region the two models of the civil search agree
entirely: the CPython-faithful `py_search_civil_code_loaded` returns the
same entries as `search_civil_code_loaded`. -/
theorem py_search_civil_code_loaded_agrees (documents metadatas : List String)
    (embs : List Vec) (qe : Vec) (n_results : ℕ)
    (hq : 0 < normSq qe) (hv : ∀ v ∈ embs, 0 < normSq v) :
    py_search_civil_code_loaded documents metadatas embs qe n_results =
      search_civil_code_loaded documents metadatas embs qe n_results := by
  unfold py_search_civil_code_loaded search_civil_code_loaded
  rw [pyListSortReverse_eq_rankedSimilarities qe embs hq hv]
